import Mathlib

/-!
Verification development for the repository-integration agent
(`src/backend/src/services/github_agent_service_with_tools.py` and the
transcript handling of `src/backend/src/services/github_agent_service.py`).

Python values that flow through the agent (tool results, parsed plans,
terminal payloads) are JSON-shaped dictionaries; they are embedded as the
inductive `Json` below.  Python strings are sequences of unicode scalar
characters; string manipulation is modelled on `List Char`.  External
services (the completion service, the hosting API) are black boxes: the
completion service is an oracle of responses, the repository is an explicit
state (`RepoState`) whose mutations mirror the Git Data API calls the code
performs.  JSON numbers are modelled as integers: every number produced or
consumed by the code paths under verification is an integer count.
-/

/-- JSON value, the shallow embedding of the Python dictionaries the service
builds and parses.  Objects keep insertion order, as Python dicts do. -/
inductive Json where
  | null : Json
  | bool : Bool → Json
  | num : Int → Json
  | str : String → Json
  | arr : List Json → Json
  | obj : List (String × Json) → Json
deriving Repr

/-- Python dict assignment `d[k] = v`: replace the value in place when the key
is present (keeping its position), append otherwise. -/
def dictSet (es : List (String × Json)) (k : String) (v : Json) : List (String × Json) :=
  if es.any (fun e => e.1 = k) then
    es.map (fun e => if e.1 = k then (k, v) else e)
  else
    es ++ [(k, v)]

/-- First-match association-list lookup (Python dict lookup; keys built through
`dictSet` are unique, so first match is the only match). -/
def assocGet (es : List (String × Json)) (k : String) : Option Json :=
  match es with
  | [] => none
  | (k', v) :: rest => if k' = k then some v else assocGet rest k

/-- Python `d.get(key)` on a JSON object (`None` when absent or not a dict). -/
def jget (j : Json) (k : String) : Option Json :=
  match j with
  | .obj es => assocGet es k
  | _ => none

/-- Python `d[k] = v` on a JSON object; other values are left unchanged. -/
def jsetKey (j : Json) (k : String) (v : Json) : Json :=
  match j with
  | .obj es => .obj (dictSet es k v)
  | other => other

/-- Python truthiness of a JSON value. -/
def jtruthy : Json → Bool
  | .null => false
  | .bool b => b
  | .num n => n ≠ 0
  | .str s => s ≠ ""
  | .arr l => !l.isEmpty
  | .obj es => !es.isEmpty

/-- Option-level truthiness: `d.get(k)` of a missing key is `None`, falsy. -/
def optTruthy : Option Json → Bool
  | none => false
  | some j => jtruthy j

/-- Whether an optional JSON value is a list (`isinstance(x, list)`). -/
def isJsonList : Option Json → Bool
  | some (.arr _) => true
  | _ => false

/-- Equality of an optional JSON value with a given string. -/
def jStrEq : Option Json → String → Bool
  | some (.str s), t => s = t
  | _, _ => false

/-- Python `int(d.get(k) or 0)` for the integer-valued fields the code reads. -/
def jgetIntOr0 (j : Json) (k : String) : Int :=
  match jget j k with
  | some (.num n) => n
  | _ => 0

/-- Lower-case hex digit. -/
def hexDigit (n : Nat) : Char :=
  if n < 10 then Char.ofNat (48 + n) else Char.ofNat (87 + n)

/-- Four lower-case hex digits, as `json.dumps` writes unicode escapes. -/
def hex4 (n : Nat) : List Char :=
  [hexDigit (n / 4096 % 16), hexDigit (n / 256 % 16), hexDigit (n / 16 % 16), hexDigit (n % 16)]

/-- Escape of one character exactly as `json.dumps` (default `ensure_ascii`)
renders it inside a string literal: printable ASCII other than quote and
backslash passes through, everything else is escaped. -/
def jsonEscapeChar (c : Char) : List Char :=
  if c = '"' then ['\\', '"']
  else if c = '\\' then ['\\', '\\']
  else if c = '\n' then ['\\', 'n']
  else if c = '\t' then ['\\', 't']
  else if c = '\r' then ['\\', 'r']
  else if c.toNat = 8 then ['\\', 'b']
  else if c.toNat = 12 then ['\\', 'f']
  else if c.toNat < 32 then '\\' :: 'u' :: hex4 c.toNat
  else if c.toNat < 127 then [c]
  else if c.toNat < 65536 then '\\' :: 'u' :: hex4 c.toNat
  else
    ('\\' :: 'u' :: hex4 (55296 + (c.toNat - 65536) / 1024))
      ++ ('\\' :: 'u' :: hex4 (56320 + (c.toNat - 65536) % 1024))

mutual

/-- Serialization of a JSON value exactly as `json.dumps` with default
separators renders it (item separator comma-space, key separator
colon-space), as a character sequence. -/
def dumpJson : Json → List Char
  | .obj es => '\x7b' :: dumpEntries es ++ ['\x7d']
  | .arr items => '[' :: dumpItems items ++ [']']
  | .str s => '"' :: (s.data.flatMap jsonEscapeChar) ++ ['"']
  | .num n => (toString n).data
  | .bool b => (if b then "true" else "false").data
  | .null => "null".data

/-- Comma-space separated serialization of array items. -/
def dumpItems : List Json → List Char
  | [] => []
  | [j] => dumpJson j
  | j :: rest => dumpJson j ++ ',' :: ' ' :: dumpItems rest

/-- Comma-space separated serialization of object entries. -/
def dumpEntries : List (String × Json) → List Char
  | [] => []
  | [(k, v)] => '"' :: (k.data.flatMap jsonEscapeChar) ++ '"' :: ':' :: ' ' :: dumpJson v
  | (k, v) :: rest =>
      ('"' :: (k.data.flatMap jsonEscapeChar) ++ '"' :: ':' :: ' ' :: dumpJson v)
        ++ ',' :: ' ' :: dumpEntries rest

end

/-- JSON whitespace skipping, as the `json` module treats whitespace. -/
def skipWs : List Char → List Char
  | [] => []
  | c :: rest => if c = ' ' ∨ c = '\t' ∨ c = '\n' ∨ c = '\r' then skipWs rest else c :: rest

/-- Value of one hex digit, upper or lower case. -/
def hexVal (c : Char) : Option Nat :=
  if '0' ≤ c ∧ c ≤ '9' then some (c.toNat - 48)
  else if 'a' ≤ c ∧ c ≤ 'f' then some (c.toNat - 87)
  else if 'A' ≤ c ∧ c ≤ 'F' then some (c.toNat - 70)
  else none

/-- Value of a four-hex-digit unicode escape. -/
def hex4Val (h1 h2 h3 h4 : Char) : Option Nat := do
  let a ← hexVal h1
  let b ← hexVal h2
  let c ← hexVal h3
  let d ← hexVal h4
  pure (a * 4096 + b * 256 + c * 16 + d)

/-- Body of a JSON string literal after the opening quote: the decoded
characters and the remainder after the closing quote.  Strict mode, as
`json.loads` defaults: raw control characters are rejected; surrogate pairs
in unicode escapes are combined (a lone surrogate is rejected, since it is
not a unicode scalar). -/
def parseStrChars : List Char → Option (List Char × List Char)
  | [] => none
  | '"' :: rest => some ([], rest)
  | '\\' :: 'u' :: h1 :: h2 :: h3 :: h4 :: rest => do
      let n ← hex4Val h1 h2 h3 h4
      if 55296 ≤ n ∧ n < 56320 then
        match rest with
        | '\\' :: 'u' :: k1 :: k2 :: k3 :: k4 :: rest2 => do
            let m ← hex4Val k1 k2 k3 k4
            if 56320 ≤ m ∧ m < 57344 then
              let (tail, rem) ← parseStrChars rest2
              pure (Char.ofNat (65536 + (n - 55296) * 1024 + (m - 56320)) :: tail, rem)
            else none
        | _ => none
      else if 56320 ≤ n ∧ n < 57344 then none
      else do
        let (tail, rem) ← parseStrChars rest
        pure (Char.ofNat n :: tail, rem)
  | '\\' :: e :: rest => do
      let c ← if e = '"' then some '"'
        else if e = '\\' then some '\\'
        else if e = '/' then some '/'
        else if e = 'b' then some (Char.ofNat 8)
        else if e = 'f' then some (Char.ofNat 12)
        else if e = 'n' then some '\n'
        else if e = 'r' then some '\r'
        else if e = 't' then some '\t'
        else none
      let (tail, rem) ← parseStrChars rest
      pure (c :: tail, rem)
  | c :: rest =>
      if c.toNat < 32 then none
      else do
        let (tail, rem) ← parseStrChars rest
        pure (c :: tail, rem)

/-- Longest prefix of decimal digits, with the remainder. -/
def spanDigits : List Char → List Char × List Char
  | [] => ([], [])
  | c :: rest =>
      if c.isDigit then
        let (ds, rem) := spanDigits rest
        (c :: ds, rem)
      else ([], c :: rest)

/-- Digits to a natural number. -/
def digitsToNat (ds : List Char) : Nat :=
  ds.foldl (fun acc c => acc * 10 + (c.toNat - 48)) 0

/-- JSON number in the grammar `json.loads` accepts, restricted to the
integers this development models: an optional minus and a digit string with
no redundant leading zero; a following fraction or exponent is not modelled
and makes the parse fail. -/
def parseNum (cs : List Char) : Option (Int × List Char) :=
  let (neg, cs1) := match cs with
    | '-' :: r => (true, r)
    | _ => (false, cs)
  match cs1 with
  | [] => none
  | c :: _ =>
      if ¬ c.isDigit then none
      else
        let (ds, rem) := spanDigits cs1
        if ds.length > 1 ∧ c = '0' then none
        else
          match rem with
          | '.' :: _ => none
          | 'e' :: _ => none
          | 'E' :: _ => none
          | _ =>
              let n : Int := Int.ofNat (digitsToNat ds)
              some (if neg then -n else n, rem)

mutual

/-- One JSON value starting at the given characters, returning the value and
the remainder, with recursion fuel. -/
def parseVal : Nat → List Char → Option (Json × List Char)
  | 0, _ => none
  | fuel + 1, cs =>
      match skipWs cs with
      | '\x7b' :: rest =>
          (match skipWs rest with
           | '\x7d' :: rest2 => some (.obj [], rest2)
           | rest2 => parseMembers fuel rest2 [])
      | '[' :: rest =>
          (match skipWs rest with
           | ']' :: rest2 => some (.arr [], rest2)
           | rest2 => parseItems fuel rest2 [])
      | '"' :: rest => (parseStrChars rest).map (fun p => (.str (String.mk p.1), p.2))
      | 't' :: 'r' :: 'u' :: 'e' :: rest => some (.bool true, rest)
      | 'f' :: 'a' :: 'l' :: 's' :: 'e' :: rest => some (.bool false, rest)
      | 'n' :: 'u' :: 'l' :: 'l' :: rest => some (.null, rest)
      | cs' => (parseNum cs').map (fun p => (.num p.1, p.2))

/-- Members of a JSON object after the opening brace (at least one member),
accumulating entries with Python dict assignment (duplicate keys: last value
wins, first position kept). -/
def parseMembers : Nat → List Char → List (String × Json) → Option (Json × List Char)
  | 0, _, _ => none
  | fuel + 1, cs, acc =>
      match skipWs cs with
      | '"' :: rest => do
          let (k, rest1) ← parseStrChars rest
          match skipWs rest1 with
          | ':' :: rest2 => do
              let (v, rest3) ← parseVal fuel rest2
              let acc2 := dictSet acc (String.mk k) v
              match skipWs rest3 with
              | ',' :: rest4 => parseMembers fuel rest4 acc2
              | '\x7d' :: rest4 => some (.obj acc2, rest4)
              | _ => none
          | _ => none
      | _ => none

/-- Items of a JSON array after the opening bracket (at least one item). -/
def parseItems : Nat → List Char → List Json → Option (Json × List Char)
  | 0, _, _ => none
  | fuel + 1, cs, acc => do
      let (v, rest) ← parseVal fuel cs
      let acc2 := acc ++ [v]
      match skipWs rest with
      | ',' :: rest2 => parseItems fuel rest2 acc2
      | ']' :: rest2 => some (.arr acc2, rest2)
      | _ => none

end

/-- Python `json.loads`: the whole input must be one JSON value surrounded by
at most whitespace. -/
def pyLoads (cs : List Char) : Option Json :=
  match parseVal (cs.length + 1) cs with
  | some (v, rest) => if skipWs rest = [] then some v else none
  | none => none

/-- Suffix starting at the first opening brace, if any. -/
def fromFirstBrace : List Char → Option (List Char)
  | [] => none
  | c :: rest => if c = '\x7b' then some (c :: rest) else fromFirstBrace rest

/-- Prefix ending at the last closing brace, if any. -/
def upToLastClose (cs : List Char) : Option (List Char) :=
  match cs.reverse.dropWhile (fun c => c ≠ '\x7d') with
  | [] => none
  | r => some r.reverse

/-- Span matched by the greedy regular expression the service uses to locate
a JSON object in free text: from the first opening brace to the last closing
brace after it. -/
def braceSpan (cs : List Char) : Option (List Char) :=
  match fromFirstBrace cs with
  | none => none
  | some suffix => upToLastClose suffix

/-- Embedding of `_extract_json_from_response`: locate the brace span and
decode it, `None` when the span is absent or does not decode. -/
def extractJsonFromResponse (text : String) : Option Json :=
  match braceSpan text.data with
  | none => none
  | some span => pyLoads span

/-- Characters removed by Python `str.strip()` with no argument (the ASCII
whitespace set; the service only ever strips ASCII paths). -/
def pyIsSpace (c : Char) : Bool :=
  c = ' ' ∨ c = '\t' ∨ c = '\n' ∨ c = '\r' ∨ c = '\x0b' ∨ c = '\x0c'

/-- Removal of a trailing run of characters satisfying a predicate. -/
def dropTrailing (p : Char → Bool) : List Char → List Char
  | [] => []
  | c :: rest =>
      match dropTrailing p rest with
      | [] => if p c then [] else [c]
      | r => c :: r

/-- Python `str.strip()`: whitespace removed from both ends. -/
def stripChars (cs : List Char) : List Char :=
  dropTrailing pyIsSpace (cs.dropWhile pyIsSpace)

/-- Path normalization applied by the write tool before the safety check:
Python `path.strip().lstrip("/")`. -/
def sanitizePath (cs : List Char) : List Char :=
  (stripChars cs).dropWhile (fun c => c = '/')

/-- Python `s.split("/")` after `s.replace("\\", "/")`: segments of a path,
split on either separator.  Splitting the empty string yields one empty
segment, as in Python. -/
def splitSlashes : List Char → List (List Char)
  | [] => [[]]
  | c :: rest =>
      if c = '/' ∨ c = '\\' then [] :: splitSlashes rest
      else
        match splitSlashes rest with
        | [] => [[c]]
        | s :: ss => (c :: s) :: ss

/-- Embedding of `_is_safe_repo_path`: reject the empty path, a path starting
with a separator, and a path with a parent-directory segment. -/
def isSafeRepoPath (cs : List Char) : Bool :=
  match cs with
  | [] => false
  | c :: _ =>
      if c = '/' ∨ c = '\\' then false
      else !(splitSlashes cs).contains ['.', '.']

/-- One commit of the working branch model: the full materialized tree (path
to content), parent commit identifiers, and the commit message. -/
structure Commit where
  tree : List (String × String)
  parents : List Nat
  message : String
deriving Repr

/-- First-match lookup in a tree or staged-write association list. -/
def assocGetS (es : List (String × String)) (k : String) : Option String :=
  match es with
  | [] => none
  | (k', v) :: rest => if k' = k then some v else assocGetS rest k

/-- Python dict assignment for staged writes. -/
def dictSetS (es : List (String × String)) (k v : String) : List (String × String) :=
  if es.any (fun e => e.1 = k) then
    es.map (fun e => if e.1 = k then (k, v) else e)
  else
    es ++ [(k, v)]

/-- The remote repository as the run observes it: created commits addressed
by index, the working-branch head, a snapshot of the default-branch tree (the
diff base), the number of blobs created through the API, and how many commits
the branch is ahead of its base. -/
structure RepoState where
  commits : List Commit
  head : Nat
  baseTree : List (String × String)
  blobs : Nat
  aheadBy : Nat
deriving Repr

/-- Well-formedness: the branch head names an existing commit. -/
def RepoState.WF (repo : RepoState) : Prop :=
  repo.head < repo.commits.length

/-- Tree of the branch-head commit (empty when the head is dangling, which
well-formedness excludes). -/
def RepoState.headTree (repo : RepoState) : List (String × String) :=
  match repo.commits[repo.head]? with
  | some c => c.tree
  | none => []

/-- Tree produced by `create_git_tree(tree_items, base_tree=...)`: the staged
entries layered onto the base tree — entries for existing paths replace them
in place, entries for new paths are appended. -/
def layerTree (base staged : List (String × String)) : List (String × String) :=
  base.map (fun pc =>
      match assocGetS staged pc.1 with
      | some c => (pc.1, c)
      | none => pc)
    ++ staged.filter (fun pc => !base.any (fun b => b.1 = pc.1))

/-- Embedding of `_flush_staged_writes`: no-op returning 0 on an empty staged
set; otherwise create one blob per staged file, one tree layering them onto
the head tree, one commit with the prior head as sole parent, move the branch
reference, clear the staged set and return the staged count.  `none` models
the exception raised when the head cannot be resolved. -/
def flushStagedWrites (repo : RepoState) (staged : List (String × String))
    (msg : String) : Option (RepoState × List (String × String) × Nat) :=
  if staged.isEmpty then some (repo, staged, 0)
  else
    match repo.commits[repo.head]? with
    | none => none
    | some baseCommit =>
        let newCommit : Commit :=
          { tree := layerTree baseCommit.tree staged
            parents := [repo.head]
            message := msg }
        some
          ({ repo with
              commits := repo.commits ++ [newCommit]
              head := repo.commits.length
              blobs := repo.blobs + staged.length
              aheadBy := repo.aheadBy + 1 },
            [], staged.length)

/-- Comparison entries of the hosting service for base...head: one entry per
added, modified or removed path (the per-file line counts the service also
reports are not modelled; no claim inspects them). -/
def diffFiles (base head : List (String × String)) : List Json :=
  (head.filter (fun pc => !(assocGetS base pc.1 = some pc.2 : Bool))).map
      (fun pc =>
        Json.obj [("filename", .str pc.1),
                  ("status", .str (if (assocGetS base pc.1).isSome then "modified" else "added"))])
    ++ (base.filter (fun pc => (assocGetS head pc.1).isNone)).map
      (fun pc => Json.obj [("filename", .str pc.1), ("status", .str "removed")])

/-- Result dictionary of the `compare_changes` tool: the diff of the working
branch against the default branch, with the file list capped at 50 entries
while the total keeps the full count. -/
def compareChangesResult (repo : RepoState) : Json :=
  let files := diffFiles repo.baseTree repo.headTree
  Json.obj [("ok", .bool true),
            ("total_files", .num files.length),
            ("ahead_by", .num repo.aheadBy),
            ("files", .arr (files.take 50))]

/-- Input of one tool invocation, per the declared JSON schemas of the three
write-phase tools (string-typed fields, each possibly absent). -/
structure ToolInput where
  path : Option String := none
  content : Option String := none
  commitMessage : Option String := none
deriving Repr

/-- Mutable state the tool executor touches: the remote repository and the
in-memory staged-write set. -/
structure ExecState where
  repo : RepoState
  staged : List (String × String)
deriving Repr

/-- Embedding of `_execute_write_tool` for the write-phase tool set.
`write_file` normalizes the path (strip, then strip leading slashes), checks
path safety and stages in memory; `flush_writes` commits the staged set;
`compare_changes` reports the server-side diff; anything else is an unknown
tool.  The catch-all exception handler of the source corresponds to the
failing flush branch. -/
def executeWriteTool (toolName : String) (input : ToolInput) (st : ExecState) :
    Json × ExecState :=
  if toolName = "write_file" then
    let path := String.mk (sanitizePath (input.path.getD "").data)
    let content := input.content.getD ""
    if !isSafeRepoPath path.data then
      (Json.obj [("ok", .bool false), ("error", .str "Invalid path")], st)
    else
      let staged := dictSetS st.staged path content
      (Json.obj [("ok", .bool true), ("path", .str path), ("staged", .bool true),
                 ("total_staged", .num staged.length)],
       { st with staged := staged })
  else if toolName = "flush_writes" then
    let msg := match input.commitMessage with
      | some s => if s = "" then "Implement experiment" else s
      | none => "Implement experiment"
    match flushStagedWrites st.repo st.staged msg with
    | some (repo, staged, count) =>
        (Json.obj [("ok", .bool true), ("committed_files", .num count)],
         { repo := repo, staged := staged })
    | none =>
        (Json.obj [("ok", .bool false), ("error", .str "flush failed"),
                   ("tool", .str toolName)], st)
  else if toolName = "compare_changes" then
    (compareChangesResult st.repo, st)
  else
    (Json.obj [("ok", .bool false), ("error", .str ("Unknown tool: " ++ toolName))], st)

/-- First step of `_compact_result`: for `compare_changes` the file list is
capped at 30 entries. -/
def preCompact (toolName : String) (result : Json) : Json :=
  if toolName = "compare_changes" then
    match jget result "files" with
    | some (.arr fs) => jsetKey result "files" (.arr (fs.take 30))
    | _ => result
  else result

/-- Embedding of `_compact_result`: serialize; when the serialization exceeds
the per-result ceiling, replace the result by an envelope with an explicit
truncated flag whose preview holds the first `maxChars` characters of the
serialization. -/
def compactResult (maxChars : Nat) (toolName : String) (result : Json) : Json :=
  let compact := preCompact toolName result
  let serialized := dumpJson compact
  if serialized.length > maxChars then
    Json.obj [("ok", (jget compact "ok").getD (.bool false)),
              ("tool", .str toolName),
              ("truncated", .bool true),
              ("preview", .str (String.mk (serialized.take maxChars)))]
  else compact

/-- Outcome of one `get_contents` call against the hosting service: a text
file, a directory listing, or an error. -/
inductive FetchResult where
  | file : String → FetchResult
  | dir : FetchResult
  | err : FetchResult

/-- Embedding of `_phase2_read`: fetch at most the first eight named paths,
skipping empty names, recording per-path failures without aborting; the
second component lists every path for which a repository request was issued.
No path-safety check is performed here. -/
def phase2Read (fetch : String → FetchResult) (paths : List String) (maxChars : Nat) :
    List (String × String) × List String :=
  (paths.take 8).foldl
    (fun acc path =>
      if path = "" then acc
      else
        match fetch path with
        | .file text => (acc.1 ++ [(path, String.mk (text.data.take maxChars))], acc.2 ++ [path])
        | _ => (acc.1, acc.2 ++ [path]))
    ([], [])

/-- Conventional entry-point candidates of the fallback plan, in order. -/
def fallbackCandidates : List String :=
  ["app/page.tsx", "src/App.tsx", "pages/index.tsx", "src/main.tsx"]

/-- First conventional entry point present in the repository tree. -/
def fallbackEntry (treePaths : List String) : Option String :=
  fallbackCandidates.find? (fun h => treePaths.contains h)

/-- The deterministic fallback plan of `_phase1_plan`. -/
def fallbackPlan (treePaths : List String) (expSlug : String) : Json :=
  Json.obj
    [("files_to_read", .arr (match fallbackEntry treePaths with
        | some e => [.str e]
        | none => [])),
     ("integration_target", match fallbackEntry treePaths with
        | some e => .str e
        | none => .null),
     ("new_files", .arr
        [.str ("src/experiments/" ++ expSlug ++ "/Controller.tsx"),
         .str ("src/experiments/" ++ expSlug ++ "/Control.tsx"),
         .str ("src/experiments/" ++ expSlug ++ "/VariantB.tsx")])]

/-- Embedding of the outcome of `_phase1_plan`.  The completion call is a
black box: `none` models an exception from it, `some text` the joined text of
its response.  The parsed plan is accepted when it is a truthy dict whose
`new_files` is a list (of any length) and whose `integration_target` is
truthy; otherwise the fallback plan is used. -/
def phase1Plan (responseText : Option String) (treePaths : List String)
    (expSlug : String) : Json :=
  match responseText with
  | none => fallbackPlan treePaths expSlug
  | some text =>
      match extractJsonFromResponse text with
      | some p =>
          if jtruthy p && isJsonList (jget p "new_files") && optTruthy (jget p "integration_target")
          then p
          else fallbackPlan treePaths expSlug
      | none => fallbackPlan treePaths expSlug

/-- Python substring containment `needle in hay` on character sequences. -/
def containsSub (needle hay : List Char) : Bool :=
  needle.isPrefixOf hay ||
    match hay with
    | [] => false
    | _ :: rest => containsSub needle rest

/-- ASCII lower-casing of one character, as Python lower-cases the ASCII
range (every signature matched below is ASCII). -/
def pyLowerChar (c : Char) : Char :=
  if 'A' ≤ c ∧ c ≤ 'Z' then Char.ofNat (c.toNat + 32) else c

/-- Embedding of `_is_retryable_error`: a substring match of rate-limit,
server-error, timeout and connection signatures against the lower-cased
error message. -/
def isRetryableError (msg : String) : Bool :=
  ["429", "rate_limit", "rate limit", "500", "502", "503", "504", "timeout", "connection"].any
    (fun x => containsSub x.data (msg.data.map pyLowerChar))

/-- Embedding of the retry loop of `_call_claude` from a given attempt index:
a successful outcome returns immediately; a non-retryable error or an error
on the final attempt is re-raised unmodified; otherwise the next attempt
runs after backoff.  Returns the outcome together with the number of
attempts made. -/
def callClaudeFrom (outcomes : Nat → Except String Nat) (maxRetries attempt : Nat) :
    Except String Nat × Nat :=
  if _h : attempt < maxRetries then
    match outcomes attempt with
    | .ok v => (.ok v, attempt + 1)
    | .error e =>
        if !isRetryableError e || attempt = maxRetries - 1 then (.error e, attempt + 1)
        else callClaudeFrom outcomes maxRetries (attempt + 1)
  else (.error "Claude call failed after retries", attempt)
termination_by maxRetries - attempt
decreasing_by omega

/-- Embedding of `_call_claude` with its configured five attempts, over an
oracle of per-attempt outcomes of the external completion service. -/
def callClaude (outcomes : Nat → Except String Nat) : Except String Nat × Nat :=
  callClaudeFrom outcomes 5 0

/-- One content block of a completion-service response: text or a tool
invocation. -/
inductive Block where
  | text : String → Block
  | toolUse : String → String → ToolInput → Block
deriving Repr

/-- One completion-service response: ordered content blocks and a stop
reason. -/
structure ModelResponse where
  content : List Block
  stopReason : String
deriving Repr

/-- One transcript message block: text, a tool invocation, or a tool result
carrying the serialized compacted result. -/
inductive MsgBlock where
  | text : String → MsgBlock
  | toolUse : String → String → ToolInput → MsgBlock
  | toolResult : String → String → MsgBlock
deriving Repr

/-- Content of a transcript message: plain text or a block list. -/
inductive MsgContent where
  | str : String → MsgContent
  | blocks : List MsgBlock → MsgContent
deriving Repr

/-- One transcript message. -/
structure Msg where
  role : String
  content : MsgContent
deriving Repr

/-- Whether a transcript message block is a tool result. -/
def MsgBlock.isToolResult : MsgBlock → Bool
  | .toolResult _ _ => true
  | _ => false

/-- Identifiers of the tool invocations of a message. -/
def msgToolUseIds (m : Msg) : List String :=
  match m.content with
  | .str _ => []
  | .blocks bs => bs.filterMap (fun b =>
      match b with
      | .toolUse id _ _ => some id
      | _ => none)

/-- Whether a message is a user message carrying at least one tool-result
block. -/
def isToolResultUserMsg (m : Msg) : Bool :=
  m.role = "user" &&
    match m.content with
    | .str _ => false
    | .blocks bs => bs.any MsgBlock.isToolResult

/-- Identifiers referenced by the tool-result blocks of a message. -/
def msgToolResultIds (m : Msg) : List String :=
  match m.content with
  | .str _ => []
  | .blocks bs => bs.filterMap (fun b =>
      match b with
      | .toolResult id _ => some id
      | _ => none)

/-- Accumulator of the per-turn block walk of `_phase3_write`: the executor
state, assistant-side blocks, matched tool results, and text chunks. -/
structure TurnAcc where
  st : ExecState
  assistantBlocks : List MsgBlock
  toolResults : List MsgBlock
  textChunks : List String

/-- Processing of one response block, mirroring the for-loop body of the
write agent: text blocks are recorded; tool invocations are executed
immediately and a matched, compacted tool result is appended. -/
def processBlock (maxChars : Nat) (acc : TurnAcc) (b : Block) : TurnAcc :=
  match b with
  | .text s =>
      { acc with
          textChunks := acc.textChunks ++ [s]
          assistantBlocks := acc.assistantBlocks ++ [.text s] }
  | .toolUse id name input =>
      let (result, st) := executeWriteTool name input acc.st
      let compact := compactResult maxChars name result
      { acc with
          st := st
          assistantBlocks := acc.assistantBlocks ++ [.toolUse id name input]
          toolResults := acc.toolResults ++ [.toolResult id (String.mk (dumpJson compact))] }

/-- State of the write-agent loop: repository, staged set, transcript, final
text and completion-call count. -/
structure LoopState where
  repo : RepoState
  staged : List (String × String)
  messages : List Msg
  finalText : String
  calls : Nat
deriving Repr

/-- Python `"\n".join(chunks).strip()` over the text chunks of a turn. -/
def joinedStripped (chunks : List String) : String :=
  String.mk (stripChars (String.intercalate "\n" chunks).data)

/-- Embedding of the turn loop of `_phase3_write`, driven by an oracle of
completion-service responses indexed by call count.  Each turn executes every
tool invocation of the response; a turn with tool results continues the loop,
a turn with non-empty final text terminates it, a bare end-of-turn triggers
the auto-flush-or-nudge branch, anything else breaks.  The error case
carries the state at the point where a mid-loop flush raised. -/
def phase3Go (oracle : Nat → ModelResponse) (maxChars : Nat) :
    Nat → LoopState → Except (String × LoopState) LoopState
  | 0, ls => .ok ls
  | turnsLeft + 1, ls =>
      let response := oracle ls.calls
      let ls := { ls with calls := ls.calls + 1 }
      let acc := response.content.foldl (processBlock maxChars)
        ⟨⟨ls.repo, ls.staged⟩, [], [], []⟩
      let ls := { ls with repo := acc.st.repo, staged := acc.st.staged }
      let ls := if acc.assistantBlocks.isEmpty then ls
        else { ls with messages := ls.messages ++ [⟨"assistant", .blocks acc.assistantBlocks⟩] }
      if !acc.toolResults.isEmpty then
        phase3Go oracle maxChars turnsLeft
          { ls with messages := ls.messages ++ [⟨"user", .blocks acc.toolResults⟩] }
      else
        let ft := joinedStripped acc.textChunks
        if ft ≠ "" then .ok { ls with finalText := ft }
        else if response.stopReason = "end_turn" then
          if !ls.staged.isEmpty then
            match flushStagedWrites ls.repo ls.staged "Implement experiment" with
            | some (repo, staged, count) =>
                phase3Go oracle maxChars turnsLeft
                  { ls with
                      repo := repo
                      staged := staged
                      messages := ls.messages ++
                        [⟨"user", .str ("Auto-flushed " ++ toString count
                            ++ " files. Output final JSON now.")⟩] }
            | none => .error ("flush failed", ls)
          else
            phase3Go oracle maxChars turnsLeft
              { ls with messages := ls.messages ++ [⟨"user", .str "Output final JSON now."⟩] }
        else .ok ls

/-- The default terminal payload synthesized when the final text is missing
or invalid while files were committed. -/
def defaultPayload : Json :=
  Json.obj
    [("status", .str "done"),
     ("prTitle", .str "feat: A/B experiment"),
     ("prDescription", .str "A/B experiment implementation with event tracking."),
     ("commitMessage", .str "Implement A/B experiment"),
     ("verificationNotes", .str "Auto-completed")]

/-- The error message of the integration-insufficiency failure. -/
def insufficiencyError (totalChanged : Int) (minChangedFiles : Nat) : String :=
  "Only " ++ toString totalChanged ++ " files changed, expected at least "
    ++ toString minChangedFiles

/-- Terminal-payload selection of `_phase3_write`: the final text (when
non-empty) is parsed; a payload that is absent, falsy, or not marked done is
replaced by the synthesized default. -/
def phase3Payload (finalText : String) : Json :=
  match (if finalText ≠ "" then extractJsonFromResponse finalText else none) with
  | some p => if jtruthy p && jStrEq (jget p "status") "done" then p else defaultPayload
  | none => defaultPayload

/-- Embedding of the post-loop section of `_phase3_write`: the unconditional
safety flush of anything still staged, the server-side re-derivation of the
diff, the hard insufficiency check, the terminal-payload parse with default
synthesis, and the extension of the payload with the diff data.  The state
returned alongside the outcome reflects every mutation made before a
failure. -/
def phase3Finalize (minChangedFiles : Nat) (ls : LoopState) :
    Except String Json × LoopState :=
  match (if !ls.staged.isEmpty
         then flushStagedWrites ls.repo ls.staged "Implement experiment (auto-flush)"
         else some (ls.repo, ls.staged, 0)) with
  | none => (.error "flush failed", ls)
  | some (repo, staged, _) =>
      let ls := { ls with repo := repo, staged := staged }
      let comparison := (executeWriteTool "compare_changes" {} ⟨ls.repo, ls.staged⟩).1
      let totalChanged := jgetIntOr0 comparison "total_files"
      if totalChanged < (minChangedFiles : Int) then
        (.error (insufficiencyError totalChanged minChangedFiles), ls)
      else
        (.ok (jsetKey (jsetKey (phase3Payload ls.finalText)
            "changed_files_count" (.num totalChanged))
            "changed_files" ((jget comparison "files").getD (.arr []))), ls)

/-- The fixed turn budget of the write agent. -/
def MAX_TURNS : Nat := 8

/-- Embedding of `_phase3_write`: run the turn loop from a fresh transcript
holding the write prompt, then finalize. -/
def phase3Write (oracle : Nat → ModelResponse) (maxChars minChangedFiles : Nat)
    (repo0 : RepoState) (writePrompt : String) : Except String Json × LoopState :=
  match phase3Go oracle maxChars MAX_TURNS
      ⟨repo0, [], [⟨"user", .str writePrompt⟩], "", 0⟩ with
  | .ok ls => phase3Finalize minChangedFiles ls
  | .error (e, ls) => (.error e, ls)

/-- The minimum-changed-files threshold derived from the segment count in
`create_experiment_pr`. -/
def minChangedFilesFor (numSegments : Nat) : Nat :=
  max 2 (min 6 (numSegments + 1))

/-- The history ceiling of the general tool agent
(`github_agent_service.py`, `max_history_messages`). -/
def MAX_HISTORY_MESSAGES : Nat := 16

/-- Embedding of the history trim of `_run_claude_tool_agent`
(`messages = [messages[0]] + messages[-(max_history_messages - 1):]` when the
length exceeds the ceiling). -/
def trimHistory (maxH : Nat) (messages : List Msg) : List Msg :=
  if messages.length > maxH then
    match messages with
    | [] => []
    | m0 :: _ => m0 :: messages.drop (messages.length - (maxH - 1))
  else messages

/-- Transcript dynamics of the turn loop of `_run_claude_tool_agent`, with
the tool outputs abstracted as an oracle of result strings (their content
never influences the message structure): per turn, append the assistant
blocks, then — when the response invoked tools — append one user message of
matched tool results, trim the history, and continue; a response without
tool invocations ends the loop. -/
def runToolAgentGo (responses : Nat → List Block) (results : Nat → String)
    (maxH : Nat) : Nat → List Msg → Nat → List Msg
  | 0, messages, _ => messages
  | turnsLeft + 1, messages, turn =>
      let blocks := responses turn
      let assistantBlocks : List MsgBlock := blocks.map (fun b =>
        match b with
        | .text s => MsgBlock.text s
        | .toolUse id name input => MsgBlock.toolUse id name input)
      let toolResultBlocks : List MsgBlock := blocks.filterMap (fun b =>
        match b with
        | .toolUse id _ _ => some (MsgBlock.toolResult id (results turn))
        | _ => none)
      let messages := if assistantBlocks.isEmpty then messages
        else messages ++ [⟨"assistant", .blocks assistantBlocks⟩]
      if toolResultBlocks.isEmpty then messages
      else
        runToolAgentGo responses results maxH turnsLeft
          (trimHistory maxH (messages ++ [⟨"user", .blocks toolResultBlocks⟩]))
          (turn + 1)

/-- Transcript of the general tool agent after its loop, starting from the
task prompt, with the configured turn and history budgets
(`max_agent_turns = 20`, `max_history_messages = 16`). -/
def runToolAgentTranscript (responses : Nat → List Block) (results : Nat → String)
    (taskPrompt : String) : List Msg :=
  runToolAgentGo responses results MAX_HISTORY_MESSAGES 20 [⟨"user", .str taskPrompt⟩] 0

/-- Number of entries under a given key. -/
def countKeyS (es : List (String × String)) (k : String) : Nat :=
  ((es.map Prod.fst).filter (fun x => x = k)).length

/-- Tool input of one `write_file` invocation. -/
def writeFileInput (p c : String) : ToolInput :=
  { path := some p, content := some c }

/-- Total changed-file count the server-side diff reports for a repository
state (the value the finalization compares against the threshold). -/
def compareTotal (repo : RepoState) : Int :=
  jgetIntOr0 (compareChangesResult repo) "total_files"

/-- Lookup distributes over append, preferring the left list. -/
theorem assocGetS_append (xs ys : List (String × String)) (p : String) :
    assocGetS (xs ++ ys) p = (assocGetS xs p).or (assocGetS ys p) := by
  induction xs with
  | nil => simp [assocGetS]
  | cons e rest ih =>
      obtain ⟨k, v⟩ := e
      by_cases h : k = p <;> simp [assocGetS, h, ih]

/-- Lookup through a value-rewriting map. -/
theorem assocGetS_map_values (es : List (String × String)) (f : String → String → String)
    (p : String) :
    assocGetS (es.map (fun pc => (pc.1, f pc.1 pc.2))) p = (assocGetS es p).map (f p) := by
  induction es with
  | nil => simp [assocGetS]
  | cons e rest ih =>
      obtain ⟨k, v⟩ := e
      by_cases h : k = p <;> simp [assocGetS, h, ih]

/-- Lookup through a key-predicate filter. -/
theorem assocGetS_filter_key (es : List (String × String)) (q : String → Bool) (p : String) :
    assocGetS (es.filter (fun pc => q pc.1)) p = if q p then assocGetS es p else none := by
  induction es with
  | nil => simp [assocGetS]
  | cons e rest ih =>
      obtain ⟨k, v⟩ := e
      by_cases hq : q k
      · by_cases h : k = p
        · subst h
          simp [assocGetS, List.filter, hq]
        · simp [assocGetS, List.filter, hq, h, ih]
      · by_cases h : k = p
        · subst h
          simp [assocGetS, List.filter, hq, ih]
        · simp [assocGetS, List.filter, hq, h, ih]

/-- Presence of a key as a boolean matches lookup success. -/
theorem assocGetS_isSome_eq_any (es : List (String × String)) (p : String) :
    (assocGetS es p).isSome = es.any (fun e => e.1 = p) := by
  induction es with
  | nil => simp [assocGetS]
  | cons e rest ih =>
      obtain ⟨k, v⟩ := e
      by_cases h : k = p <;> simp [assocGetS, h, ih]

/-- The layered tree in value-map form. -/
theorem layerTree_eq (base staged : List (String × String)) :
    layerTree base staged =
      base.map (fun pc => (pc.1, (assocGetS staged pc.1).getD pc.2))
        ++ staged.filter (fun pc => !base.any (fun b => b.1 = pc.1)) := by
  unfold layerTree
  congr 1
  apply List.map_congr_left
  intro pc _
  cases h : assocGetS staged pc.1 <;> simp [h]

/-- Lookup in the layered tree: a staged entry wins, otherwise the base entry
is returned. -/
theorem assocGetS_layerTree (base staged : List (String × String)) (p : String) :
    assocGetS (layerTree base staged) p = (assocGetS staged p).or (assocGetS base p) := by
  rw [layerTree_eq, assocGetS_append,
    assocGetS_map_values base (fun k v => (assocGetS staged k).getD v) p,
    assocGetS_filter_key staged (fun k => !base.any (fun b => b.1 = k)) p]
  by_cases hb : base.any (fun b => b.1 = p)
  · have hs : (assocGetS base p).isSome = true := by rw [assocGetS_isSome_eq_any]; exact hb
    obtain ⟨c, hc⟩ := Option.isSome_iff_exists.mp hs
    cases hst : assocGetS staged p <;> simp [hb, hc, hst]
  · have hs : (assocGetS base p).isSome = false := by rw [assocGetS_isSome_eq_any]; simp [hb]
    have hnone : assocGetS base p = none := Option.not_isSome_iff_eq_none.mp (by simp [hs])
    cases hst : assocGetS staged p <;> simp [hb, hnone, hst]

/-- Flushing an empty staged set is a complete no-op returning 0. -/
theorem flushStagedWrites_nil (repo : RepoState) (msg : String) :
    flushStagedWrites repo [] msg = some (repo, [], 0) := by
  simp [flushStagedWrites]

/-- Head commit lookup succeeds on a well-formed repository. -/
theorem headCommit_of_wf (repo : RepoState) (hwf : repo.WF) :
    repo.commits[repo.head]? = some repo.commits[repo.head] :=
  List.getElem?_eq_getElem hwf

/-- Head tree of a well-formed repository. -/
theorem headTree_of_wf (repo : RepoState) (hwf : repo.WF) :
    repo.headTree = repo.commits[repo.head].tree := by
  unfold RepoState.headTree
  rw [headCommit_of_wf repo hwf]

/-- Flushing a non-empty staged set on a well-formed repository creates the
single layered commit and clears the staged set. -/
theorem flushStagedWrites_cons (repo : RepoState) (staged : List (String × String))
    (msg : String) (h : staged ≠ []) (hwf : repo.WF) :
    flushStagedWrites repo staged msg =
      some
        ({ repo with
            commits := repo.commits ++
              [{ tree := layerTree repo.headTree staged
                 parents := [repo.head]
                 message := msg }]
            head := repo.commits.length
            blobs := repo.blobs + staged.length
            aheadBy := repo.aheadBy + 1 },
          [], staged.length) := by
  unfold flushStagedWrites
  rw [headTree_of_wf repo hwf]
  simp [h, headCommit_of_wf repo hwf]

/-- A successful flush preserves repository well-formedness. -/
theorem flush_preserves_wf (repo repo' : RepoState) (staged staged' : List (String × String))
    (msg : String) (n : Nat) (hwf : repo.WF)
    (h : flushStagedWrites repo staged msg = some (repo', staged', n)) : repo'.WF := by
  by_cases hs : staged = []
  · subst hs
    rw [flushStagedWrites_nil] at h
    obtain ⟨rfl, -, -⟩ := Prod.mk.injEq .. ▸ (Option.some.injEq .. ▸ h)
    exact hwf
  · rw [flushStagedWrites_cons repo staged msg hs hwf] at h
    obtain ⟨rfl, -, -⟩ := Prod.mk.injEq .. ▸ (Option.some.injEq .. ▸ h)
    simp [RepoState.WF]

/-- C1: for every staged-write set S, the flush operation either creates
exactly one new commit whose tree is S layered onto the prior head tree (one
blob created per staged file, the prior head as sole parent), moves the
branch reference to it and clears the staged set — so that an immediate
second flush is a no-op returning 0 — or, when S is empty, performs no
repository mutation and returns 0. -/
theorem claim_C1_flush (repo : RepoState) (staged : List (String × String))
    (msg msg2 : String) (hwf : repo.WF) :
    (staged = [] → flushStagedWrites repo staged msg = some (repo, [], 0)) ∧
    (staged ≠ [] →
      ∃ repo',
        flushStagedWrites repo staged msg = some (repo', [], staged.length) ∧
        repo'.commits = repo.commits ++
          [{ tree := layerTree repo.headTree staged
             parents := [repo.head]
             message := msg }] ∧
        repo'.head = repo.commits.length ∧
        repo'.headTree = layerTree repo.headTree staged ∧
        (∀ p, assocGetS repo'.headTree p =
          (assocGetS staged p).or (assocGetS repo.headTree p)) ∧
        repo'.blobs = repo.blobs + staged.length ∧
        flushStagedWrites repo' [] msg2 = some (repo', [], 0)) := by
  constructor
  · rintro rfl
    exact flushStagedWrites_nil repo msg
  · intro h
    refine ⟨_, flushStagedWrites_cons repo staged msg h hwf, rfl, rfl, ?_, ?_, rfl,
      flushStagedWrites_nil _ msg2⟩
    · unfold RepoState.headTree
      simp
    · intro p
      have ht : RepoState.headTree
          { repo with
              commits := repo.commits ++
                [{ tree := layerTree repo.headTree staged
                   parents := [repo.head]
                   message := msg }]
              head := repo.commits.length
              blobs := repo.blobs + staged.length
              aheadBy := repo.aheadBy + 1 } = layerTree repo.headTree staged := by
        unfold RepoState.headTree
        simp
      rw [ht, assocGetS_layerTree]

/-- Witness for the C1 theorem: the spec scenario, a staged set of two files
flushed on a one-commit repository; the second flush is a no-op. -/
theorem claim_C1_flush_witness :
    (([("a.tsx", "X"), ("b.tsx", "Y")] : List (String × String)) ≠ []) ∧
    (∃ repo',
      flushStagedWrites ⟨[⟨[("old.tsx", "O")], [], "init"⟩], 0, [("old.tsx", "O")], 0, 0⟩
        [("a.tsx", "X"), ("b.tsx", "Y")] "m" = some (repo', [], 2) ∧
      flushStagedWrites repo' [] "m2" = some (repo', [], 0)) := by
  have h := claim_C1_flush ⟨[⟨[("old.tsx", "O")], [], "init"⟩], 0, [("old.tsx", "O")], 0, 0⟩
    [("a.tsx", "X"), ("b.tsx", "Y")] "m" "m2" (by simp [RepoState.WF])
  obtain ⟨-, h2⟩ := h
  obtain ⟨repo', hflush, -, -, -, -, -, hnoop⟩ := h2 (by simp)
  exact ⟨by simp, repo', hflush, hnoop⟩

/-- Keys after a staged-write dict assignment: unchanged when the key was
present, appended otherwise. -/
theorem dictSetS_keys (es : List (String × String)) (k v : String) :
    (dictSetS es k v).map Prod.fst =
      if es.any (fun e => e.1 = k) then es.map Prod.fst else es.map Prod.fst ++ [k] := by
  unfold dictSetS
  split
  · rw [List.map_map]
    apply List.map_congr_left
    intro e _
    by_cases h : e.1 = k <;> simp [h]
  · simp

/-- Dict assignment preserves key uniqueness. -/
theorem dictSetS_nodup (es : List (String × String)) (k v : String)
    (h : (es.map Prod.fst).Nodup) : ((dictSetS es k v).map Prod.fst).Nodup := by
  rw [dictSetS_keys]
  split
  · exact h
  · next hany =>
      have : k ∉ es.map Prod.fst := by
        intro hk
        exact hany (List.any_eq_true.mpr (by
          obtain ⟨e, he, hk⟩ := List.mem_map.mp hk
          exact ⟨e, he, by simp [hk]⟩))
      simp [List.nodup_append, h, this]

/-- Replacing the value of a present key yields that value on lookup. -/
theorem assocGetS_mapReplace_self (es : List (String × String)) (k v : String)
    (h : es.any (fun e => e.1 = k) = true) :
    assocGetS (es.map (fun e => if e.1 = k then (k, v) else e)) k = some v := by
  induction es with
  | nil => simp at h
  | cons e rest ih =>
      obtain ⟨k1, v1⟩ := e
      by_cases hk : k1 = k
      · subst hk
        rw [List.map_cons]
        have hrepl : (if ((k1, v1) : String × String).1 = k1 then ((k1, v) : String × String)
            else (k1, v1)) = (k1, v) := by simp
        rw [hrepl]
        simp [assocGetS]
      · have h' : rest.any (fun e => e.1 = k) = true := by
          simp only [List.any_cons] at h
          rcases Bool.or_eq_true_iff.mp h with h1 | h2
          · exact absurd (by simpa using h1) hk
          · exact h2
        rw [List.map_cons]
        have hrepl : (if ((k1, v1) : String × String).1 = k then ((k, v) : String × String)
            else (k1, v1)) = (k1, v1) := by simp [hk]
        rw [hrepl]
        simp [assocGetS, hk, ih h']

/-- Lookup after dict assignment returns the assigned value. -/
theorem assocGetS_dictSetS_self (es : List (String × String)) (k v : String) :
    assocGetS (dictSetS es k v) k = some v := by
  unfold dictSetS
  by_cases h : es.any (fun e => e.1 = k) = true
  · rw [if_pos h]
    exact assocGetS_mapReplace_self es k v h
  · rw [if_neg h, assocGetS_append]
    have hnone : assocGetS es k = none := by
      have := assocGetS_isSome_eq_any es k
      rw [Bool.eq_false_iff.mpr h] at this
      exact Option.not_isSome_iff_eq_none.mp (by simp [this])
    simp [hnone, assocGetS]

/-- Key count over an append. -/
theorem countKeyS_append (xs ys : List (String × String)) (k : String) :
    countKeyS (xs ++ ys) k = countKeyS xs k + countKeyS ys k := by
  simp [countKeyS]

/-- An absent key has count zero. -/
theorem countKeyS_eq_zero (es : List (String × String)) (k : String)
    (h : es.any (fun e => e.1 = k) = false) : countKeyS es k = 0 := by
  induction es with
  | nil => simp [countKeyS]
  | cons e rest ih =>
      simp only [List.any_cons, Bool.or_eq_false_iff] at h
      have h1 : ¬ e.1 = k := by simpa using h.1
      have := ih h.2
      simp only [countKeyS, List.map_cons, List.filter_cons] at *
      simp [h1, this]

/-- Under unique keys, a present key has count one. -/
theorem countKeyS_eq_one (es : List (String × String)) (k : String)
    (hnodup : (es.map Prod.fst).Nodup) (h : es.any (fun e => e.1 = k) = true) :
    countKeyS es k = 1 := by
  induction es with
  | nil => simp at h
  | cons e rest ih =>
      simp only [List.map_cons, List.nodup_cons] at hnodup
      by_cases hk : e.1 = k
      · have hzero : countKeyS rest k = 0 := by
          apply countKeyS_eq_zero
          by_contra hc
          have : rest.any (fun e => e.1 = k) = true := by
            cases hr : rest.any (fun e => e.1 = k)
            · exact absurd hr hc
            · rfl
          obtain ⟨x, hx, hxk⟩ := List.any_eq_true.mp this
          exact hnodup.1 (hk ▸ (by simpa using hxk) ▸ List.mem_map_of_mem Prod.fst hx)
        simp only [countKeyS, List.map_cons, List.filter_cons] at *
        simp [hk, hzero]
      · have h' : rest.any (fun e => e.1 = k) = true := by
          simp only [List.any_cons] at h
          rcases Bool.or_eq_true_iff.mp h with h1 | h2
          · exact absurd (by simpa using h1) hk
          · exact h2
        have := ih hnodup.2 h'
        simp only [countKeyS, List.map_cons, List.filter_cons] at *
        simp [hk, this]

/-- Key count after dict assignment. -/
theorem countKeyS_dictSetS_self (es : List (String × String)) (k v : String) :
    countKeyS (dictSetS es k v) k =
      if es.any (fun e => e.1 = k) then countKeyS es k else countKeyS es k + 1 := by
  unfold countKeyS
  rw [dictSetS_keys]
  split <;> simp

/-- Length after dict assignment. -/
theorem dictSetS_length (es : List (String × String)) (k v : String) :
    (dictSetS es k v).length =
      if es.any (fun e => e.1 = k) then es.length else es.length + 1 := by
  have h1 : (dictSetS es k v).length = ((dictSetS es k v).map Prod.fst).length := by simp
  rw [h1, dictSetS_keys]
  split <;> simp

/-- Keys of a value-rewriting map. -/
theorem keys_map_values (es : List (String × String)) (f : String → String → String) :
    (es.map (fun pc => (pc.1, f pc.1 pc.2))).map Prod.fst = es.map Prod.fst := by
  rw [List.map_map]
  apply List.map_congr_left
  intro e _
  rfl

/-- Key count through a key-predicate filter. -/
theorem countKeyS_filter_key (es : List (String × String)) (q : String → Bool) (k : String) :
    countKeyS (es.filter (fun pc => q pc.1)) k = if q k then countKeyS es k else 0 := by
  induction es with
  | nil => simp [countKeyS]
  | cons e rest ih =>
      by_cases hq : q e.1
      · by_cases hk : e.1 = k
        · subst hk
          simp only [countKeyS, List.filter_cons, hq, if_true, List.map_cons,
            List.filter_cons] at *
          simp [hq, ih]
        · simp only [countKeyS, List.filter_cons, hq, if_true, List.map_cons,
            List.filter_cons] at *
          simp [hk, ih]
      · by_cases hk : e.1 = k
        · subst hk
          simp only [countKeyS, List.filter_cons, hq, if_false, List.map_cons,
            List.filter_cons] at *
          simp [hq, ih, Bool.eq_false_iff.mpr hq]
        · simp only [countKeyS, List.filter_cons, hq, if_false, List.map_cons,
            List.filter_cons] at *
          simp [hk, ih]

/-- Key count of the layered tree. -/
theorem countKeyS_layerTree (base staged : List (String × String)) (k : String) :
    countKeyS (layerTree base staged) k =
      countKeyS base k + (if base.any (fun b => b.1 = k) then 0 else countKeyS staged k) := by
  rw [layerTree_eq, countKeyS_append]
  have h1 : countKeyS (base.map (fun pc => (pc.1, (assocGetS staged pc.1).getD pc.2))) k
      = countKeyS base k := by
    unfold countKeyS
    rw [keys_map_values base (fun a b => (assocGetS staged a).getD b)]
  rw [h1, countKeyS_filter_key staged (fun x => !base.any (fun b => b.1 = x)) k]
  by_cases hb : base.any (fun b => b.1 = k) <;> simp [hb]

/-- Unfolding of a safe `write_file` invocation: the content is staged under
the normalized path. -/
theorem executeWriteTool_write_file (p c : String) (st : ExecState)
    (hsafe : isSafeRepoPath (sanitizePath p.data) = true) :
    executeWriteTool "write_file" (writeFileInput p c) st =
      (Json.obj [("ok", .bool true), ("path", .str (String.mk (sanitizePath p.data))),
                 ("staged", .bool true),
                 ("total_staged", .num (dictSetS st.staged (String.mk (sanitizePath p.data)) c).length)],
       { st with staged := dictSetS st.staged (String.mk (sanitizePath p.data)) c }) := by
  unfold executeWriteTool writeFileInput
  simp [hsafe]

/-- Unfolding of an unsafe `write_file` invocation: rejected with no state
change — nothing is staged and the repository is untouched, so no request is
ever issued for the path. -/
theorem executeWriteTool_write_file_reject (p c : String) (st : ExecState)
    (hbad : isSafeRepoPath (sanitizePath p.data) = false) :
    executeWriteTool "write_file" (writeFileInput p c) st =
      (Json.obj [("ok", .bool false), ("error", .str "Invalid path")], st) := by
  unfold executeWriteTool writeFileInput
  simp [hbad]

/-- C10: staging is last-write-wins per path.  Invoking the write tool twice
on the same path with contents c1 then c2 leaves exactly one staged entry for
the (normalized) path, holding c2; the second invocation adds no entry; a
subsequent flush reports one committed file per distinct staged path (the
staged keys stay unique, so the count equals the staged length, not the
number of write invocations) and the resulting head tree holds exactly one
entry for the path, containing c2, with one blob per staged file. -/
theorem claim_C10_last_write_wins (p c1 c2 msg sp : String) (st st1 st2 : ExecState)
    (hsp : sp = String.mk (sanitizePath p.data))
    (hsafe : isSafeRepoPath (sanitizePath p.data) = true)
    (hnodup : (st.staged.map Prod.fst).Nodup)
    (hwf : st.repo.WF)
    (hbase : (st.repo.headTree.map Prod.fst).Nodup)
    (h1 : st1 = (executeWriteTool "write_file" (writeFileInput p c1) st).2)
    (h2 : st2 = (executeWriteTool "write_file" (writeFileInput p c2) st1).2) :
    countKeyS st2.staged sp = 1 ∧
    assocGetS st2.staged sp = some c2 ∧
    st2.staged.length = st1.staged.length ∧
    (st2.staged.map Prod.fst).Nodup ∧
    ∃ repo',
      flushStagedWrites st2.repo st2.staged msg = some (repo', [], st2.staged.length) ∧
      repo'.blobs = st2.repo.blobs + st2.staged.length ∧
      countKeyS repo'.headTree sp = 1 ∧
      assocGetS repo'.headTree sp = some c2 := by
  rw [executeWriteTool_write_file p c1 st hsafe] at h1
  simp only [] at h1
  rw [h1, executeWriteTool_write_file p c2 _ hsafe] at h2
  simp only [] at h2
  subst hsp
  set spv := String.mk (sanitizePath p.data) with hspv
  set s1 := dictSetS st.staged spv c1 with hs1
  set s2 := dictSetS s1 spv c2 with hs2
  have hst1staged : st1.staged = s1 := by rw [h1]
  have hst2 : st2 = { st with staged := s2 } := by rw [h2]
  have hany1 : s1.any (fun e => e.1 = spv) = true := by
    have := assocGetS_dictSetS_self st.staged spv c1
    have hsome : (assocGetS s1 spv).isSome = true := by rw [← hs1] at this; simp [this]
    rw [assocGetS_isSome_eq_any] at hsome
    exact hsome
  have hnodup1 : (s1.map Prod.fst).Nodup := dictSetS_nodup st.staged spv c1 hnodup
  have hnodup2 : (s2.map Prod.fst).Nodup := dictSetS_nodup s1 spv c2 hnodup1
  have hcount2 : countKeyS s2 spv = 1 := by
    rw [hs2, countKeyS_dictSetS_self, if_pos hany1]
    exact countKeyS_eq_one s1 spv hnodup1 hany1
  have hget2 : assocGetS s2 spv = some c2 := assocGetS_dictSetS_self s1 spv c2
  have hlen : s2.length = s1.length := by
    rw [hs2, dictSetS_length, if_pos hany1]
  have hne : s2 ≠ [] := by
    intro hc
    rw [hc] at hget2
    simp [assocGetS] at hget2
  have hany2 : s2.any (fun e => e.1 = spv) = true := by
    have hsome : (assocGetS s2 spv).isSome = true := by simp [hget2]
    rw [assocGetS_isSome_eq_any] at hsome
    exact hsome
  refine ⟨by rw [hst2]; exact hcount2, by rw [hst2]; exact hget2,
    by rw [hst2, hst1staged]; exact hlen, by rw [hst2]; exact hnodup2, ?_⟩
  have hrepo2 : st2.repo = st.repo := by rw [hst2]
  have hflush := flushStagedWrites_cons st.repo s2 msg hne hwf
  refine ⟨_, by rw [hst2]; exact hflush, by rw [hst2], ?_, ?_⟩
  · have ht : RepoState.headTree
        { st.repo with
            commits := st.repo.commits ++
              [{ tree := layerTree st.repo.headTree s2
                 parents := [st.repo.head]
                 message := msg }]
            head := st.repo.commits.length
            blobs := st.repo.blobs + s2.length
            aheadBy := st.repo.aheadBy + 1 } = layerTree st.repo.headTree s2 := by
      unfold RepoState.headTree
      simp
    rw [ht, countKeyS_layerTree]
    by_cases hb : st.repo.headTree.any (fun b => b.1 = spv)
    · rw [if_pos hb, countKeyS_eq_one st.repo.headTree spv hbase hb]
    · rw [if_neg hb, countKeyS_eq_zero st.repo.headTree spv (Bool.eq_false_iff.mpr hb), hcount2]
  · have ht : RepoState.headTree
        { st.repo with
            commits := st.repo.commits ++
              [{ tree := layerTree st.repo.headTree s2
                 parents := [st.repo.head]
                 message := msg }]
            head := st.repo.commits.length
            blobs := st.repo.blobs + s2.length
            aheadBy := st.repo.aheadBy + 1 } = layerTree st.repo.headTree s2 := by
      unfold RepoState.headTree
      simp
    rw [ht, assocGetS_layerTree, hget2]
    rfl

/-- Witness for the C10 theorem: two writes to `a.tsx` with contents X then Y
from a fresh state leave one staged entry holding Y. -/
theorem claim_C10_last_write_wins_witness :
    countKeyS ((executeWriteTool "write_file" (writeFileInput "a.tsx" "Y")
        ((executeWriteTool "write_file" (writeFileInput "a.tsx" "X")
          ⟨⟨[⟨[], [], "init"⟩], 0, [], 0, 0⟩, []⟩).2)).2).staged "a.tsx" = 1 ∧
    assocGetS ((executeWriteTool "write_file" (writeFileInput "a.tsx" "Y")
        ((executeWriteTool "write_file" (writeFileInput "a.tsx" "X")
          ⟨⟨[⟨[], [], "init"⟩], 0, [], 0, 0⟩, []⟩).2)).2).staged "a.tsx" = some "Y" := by
  have h := claim_C10_last_write_wins "a.tsx" "X" "Y" "m" "a.tsx"
    ⟨⟨[⟨[], [], "init"⟩], 0, [], 0, 0⟩, []⟩ _ _ (by decide) (by decide) (by decide)
    (by simp [RepoState.WF]) (by decide) rfl rfl
  exact ⟨h.1, h.2.1⟩

/-- A run of retryable failures on non-final attempts advances the retry loop
without changing its outcome. -/
theorem callClaudeFrom_skip (outcomes : Nat → Except String Nat) (m a b : Nat)
    (hab : a ≤ b) (hbm : b < m)
    (herr : ∀ i, a ≤ i → i < b → ∃ e, outcomes i = .error e ∧ isRetryableError e = true) :
    callClaudeFrom outcomes m a = callClaudeFrom outcomes m b := by
  suffices h : ∀ n a, b - a = n → a ≤ b →
      (∀ i, a ≤ i → i < b → ∃ e, outcomes i = .error e ∧ isRetryableError e = true) →
      callClaudeFrom outcomes m a = callClaudeFrom outcomes m b by
    exact h (b - a) a rfl hab herr
  intro n
  induction n with
  | zero =>
      intro a hn hab2 herr2
      have : a = b := by omega
      subst this
      rfl
  | succ n ih =>
      intro a hn hab2 herr2
      have hlt : a < b := by omega
      obtain ⟨e, he, hr⟩ := herr2 a le_rfl hlt
      have ham : a < m := by omega
      have hne : ¬ a = m - 1 := by omega
      conv_lhs => rw [callClaudeFrom]
      rw [dif_pos ham, he]
      simp only [hr, Bool.not_true, Bool.false_or, decide_eq_false hne, Bool.false_eq_true,
        if_false]
      have hd1 : b - (a + 1) = n := by omega
      have hd2 : a + 1 ≤ b := by omega
      exact ih (a + 1) hd1 hd2 (fun i hi1 hi2 => herr2 i (by omega) hi2)

/-- C7: for the retry wrapper with its five maximum attempts — K-1 retryable
failures followed by a success (K at most 5) make the call succeed after
exactly K attempts; five retryable failures propagate the fifth error
unmodified after exactly five attempts; and a non-retryable error propagates
immediately on the attempt where it occurs. -/
theorem claim_C7_retry (outcomes : Nat → Except String Nat) :
    (∀ K v, 1 ≤ K → K ≤ 5 →
      (∀ i, i < K - 1 → ∃ e, outcomes i = .error e ∧ isRetryableError e = true) →
      outcomes (K - 1) = .ok v →
      callClaude outcomes = (.ok v, K)) ∧
    (∀ es : Nat → String,
      (∀ i, i < 5 → outcomes i = .error (es i) ∧ isRetryableError (es i) = true) →
      callClaude outcomes = (.error (es 4), 5)) ∧
    (∀ j e, j < 5 →
      (∀ i, i < j → ∃ e2, outcomes i = .error e2 ∧ isRetryableError e2 = true) →
      outcomes j = .error e → isRetryableError e = false →
      callClaude outcomes = (.error e, j + 1)) := by
  refine ⟨?_, ?_, ?_⟩
  · intro K v hK1 hK5 herr hok
    unfold callClaude
    rw [callClaudeFrom_skip outcomes 5 0 (K - 1) (by omega) (by omega)
      (fun i hi1 hi2 => herr i hi2)]
    conv_lhs => rw [callClaudeFrom]
    rw [dif_pos (show K - 1 < 5 by omega), hok]
    have hK : K - 1 + 1 = K := by omega
    rw [hK]
  · intro es herr
    unfold callClaude
    rw [callClaudeFrom_skip outcomes 5 0 4 (by omega) (by omega)
      (fun i hi1 hi2 => ⟨es i, (herr i (by omega)).1, (herr i (by omega)).2⟩)]
    conv_lhs => rw [callClaudeFrom]
    rw [dif_pos (show (4 : Nat) < 5 by omega), (herr 4 (by omega)).1]
    simp
  · intro j e hj herr he hnr
    unfold callClaude
    rw [callClaudeFrom_skip outcomes 5 0 j (by omega) hj (fun i hi1 hi2 => herr i hi2)]
    conv_lhs => rw [callClaudeFrom]
    rw [dif_pos hj, he]
    simp [hnr]

/-- Witness for the C7 theorem: one retryable failure then a success — the
call succeeds after exactly two attempts. -/
theorem claim_C7_retry_witness :
    callClaude (fun i => if i = 0 then Except.error "rate limit" else .ok 7) = (.ok 7, 2) := by
  have h := (claim_C7_retry (fun i => if i = 0 then Except.error "rate limit" else .ok 7)).1
  refine h 2 7 (by omega) (by omega) ?_ rfl
  intro i hi
  have h0 : i = 0 := by omega
  subst h0
  exact ⟨"rate limit", rfl, by decide⟩

/-- Splitting always yields at least one segment. -/
theorem splitSlashes_ne_nil (cs : List Char) : splitSlashes cs ≠ [] := by
  cases cs with
  | nil => simp [splitSlashes]
  | cons c rest =>
      unfold splitSlashes
      by_cases h : c = '/' ∨ c = '\\'
      · simp [h]
      · simp only [h, if_false]
        cases splitSlashes rest <;> simp

/-- A whitespace character is not a path separator. -/
theorem pyIsSpace_not_sep (c : Char) (h : pyIsSpace c = true) : ¬ (c = '/' ∨ c = '\\') := by
  rcases (by simpa [pyIsSpace] using h :
      c = ' ' ∨ c = '\t' ∨ c = '\n' ∨ c = '\r' ∨ c = '\x0b' ∨ c = '\x0c') with
    rfl | rfl | rfl | rfl | rfl | rfl <;> decide

/-- A whitespace character is not a dot. -/
theorem pyIsSpace_ne_dot (c : Char) (h : pyIsSpace c = true) : c ≠ '.' := by
  rcases (by simpa [pyIsSpace] using h :
      c = ' ' ∨ c = '\t' ∨ c = '\n' ∨ c = '\r' ∨ c = '\x0b' ∨ c = '\x0c') with
    rfl | rfl | rfl | rfl | rfl | rfl <;> decide

/-- A parent-directory segment survives stripping leading whitespace. -/
theorem dotdot_mem_dropWhile_ws (cs : List Char) (h : ['.', '.'] ∈ splitSlashes cs) :
    ['.', '.'] ∈ splitSlashes (cs.dropWhile pyIsSpace) := by
  induction cs with
  | nil => simpa using h
  | cons c rest ih =>
      by_cases hws : pyIsSpace c
      · have hsep := pyIsSpace_not_sep c hws
        rw [List.dropWhile_cons_of_pos hws]
        apply ih
        unfold splitSlashes at h
        rw [if_neg hsep] at h
        rcases hrest : splitSlashes rest with _ | ⟨s, ss⟩
        · exact absurd hrest (splitSlashes_ne_nil rest)
        · rw [hrest] at h
          rcases List.mem_cons.mp h with heq | hmem
          · have hc : c = '.' := by
              have hh := congrArg (fun l => l.headI) heq
              simpa using hh.symm
            exact absurd hc (pyIsSpace_ne_dot c hws)
          · exact List.mem_cons_of_mem s hmem
      · rwa [List.dropWhile_cons_of_neg hws]

/-- A parent-directory segment survives stripping leading slashes. -/
theorem dotdot_mem_dropWhile_slash (cs : List Char) (h : ['.', '.'] ∈ splitSlashes cs) :
    ['.', '.'] ∈ splitSlashes (cs.dropWhile (fun c => c = '/')) := by
  induction cs with
  | nil => simpa using h
  | cons c rest ih =>
      by_cases hsl : c = '/'
      · subst hsl
        rw [List.dropWhile_cons_of_pos (by simp)]
        apply ih
        unfold splitSlashes at h
        rw [if_pos (Or.inl rfl)] at h
        rcases List.mem_cons.mp h with heq | hmem
        · simp at heq
        · exact hmem
      · rwa [List.dropWhile_cons_of_neg (by simpa using hsl)]

/-- Removal of a trailing run over a snoc. -/
theorem dropTrailing_snoc (p : Char → Bool) (ys : List Char) (c : Char) :
    dropTrailing p (ys ++ [c]) = if p c then dropTrailing p ys else ys ++ [c] := by
  induction ys with
  | nil =>
      unfold dropTrailing
      by_cases h : p c <;> simp [h, dropTrailing]
  | cons y ys ih =>
      show dropTrailing p (y :: (ys ++ [c])) = _
      unfold dropTrailing
      rw [ih]
      by_cases h : p c
      · rw [if_pos h, if_pos h]
      · rw [if_neg h, if_neg h]
        cases ys <;> simp

/-- Splitting over a snoc of a separator appends one empty segment. -/
theorem splitSlashes_snoc_sep (ys : List Char) (c : Char) (h : c = '/' ∨ c = '\\') :
    splitSlashes (ys ++ [c]) = splitSlashes ys ++ [[]] := by
  induction ys with
  | nil => simp [splitSlashes, h]
  | cons y ys ih =>
      show splitSlashes (y :: (ys ++ [c])) = _
      unfold splitSlashes
      by_cases hy : y = '/' ∨ y = '\\'
      · simp [hy, ih]
      · simp only [hy, if_false]
        rw [ih]
        rcases hys : splitSlashes ys with _ | ⟨s, ss⟩
        · exact absurd hys (splitSlashes_ne_nil ys)
        · simp

/-- Splitting over a snoc of a non-separator extends the last segment. -/
theorem splitSlashes_snoc_nonsep (ys : List Char) (c : Char) (h : ¬ (c = '/' ∨ c = '\\')) :
    ∃ pre lastSeg, splitSlashes ys = pre ++ [lastSeg] ∧
      splitSlashes (ys ++ [c]) = pre ++ [lastSeg ++ [c]] := by
  induction ys with
  | nil => exact ⟨[], [], by simp [splitSlashes], by simp [splitSlashes, h]⟩
  | cons y ys ih =>
      obtain ⟨pre, lastSeg, h1, h2⟩ := ih
      by_cases hy : y = '/' ∨ y = '\\'
      · refine ⟨[] :: pre, lastSeg, ?_, ?_⟩
        · show splitSlashes (y :: ys) = _
          unfold splitSlashes
          simp [hy, h1]
        · show splitSlashes (y :: (ys ++ [c])) = _
          unfold splitSlashes
          simp [hy, h2]
      · rcases pre with _ | ⟨q, qs⟩
        · refine ⟨[], y :: lastSeg, ?_, ?_⟩
          · show splitSlashes (y :: ys) = _
            unfold splitSlashes
            simp only [hy, if_false]
            rw [h1]
            simp
          · show splitSlashes (y :: (ys ++ [c])) = _
            unfold splitSlashes
            simp only [hy, if_false]
            rw [h2]
            simp
        · refine ⟨(y :: q) :: qs, lastSeg, ?_, ?_⟩
          · show splitSlashes (y :: ys) = _
            unfold splitSlashes
            simp only [hy, if_false]
            rw [h1]
            simp
          · show splitSlashes (y :: (ys ++ [c])) = _
            unfold splitSlashes
            simp only [hy, if_false]
            rw [h2]
            simp

/-- A parent-directory segment survives stripping trailing whitespace. -/
theorem dotdot_mem_dropTrailing_ws (cs : List Char) (h : ['.', '.'] ∈ splitSlashes cs) :
    ['.', '.'] ∈ splitSlashes (dropTrailing pyIsSpace cs) := by
  induction cs using List.reverseRecOn with
  | nil => simpa using h
  | append_singleton ys c ih =>
      by_cases hws : pyIsSpace c
      · rw [dropTrailing_snoc, if_pos hws]
        apply ih
        have hnonsep := pyIsSpace_not_sep c hws
        obtain ⟨pre, lastSeg, h1, h2⟩ := splitSlashes_snoc_nonsep ys c hnonsep
        rw [h2] at h
        rcases List.mem_append.mp h with hmem | hlast
        · rw [h1]
          exact List.mem_append.mpr (Or.inl hmem)
        · have heq : ['.', '.'] = lastSeg ++ [c] := by simpa using hlast
          have hc : c = '.' := by
            have hh := congrArg (fun l => l.getLast?) heq
            simpa using hh.symm
          exact absurd hc (pyIsSpace_ne_dot c hws)
      · rw [dropTrailing_snoc, if_neg hws]
        exact h

/-- A parent-directory segment in the raw path survives the full write-tool
normalization (strip both ends, then strip leading slashes), so the safety
check rejects the path. -/
theorem dotdot_rejected (cs : List Char) (h : ['.', '.'] ∈ splitSlashes cs) :
    isSafeRepoPath (sanitizePath cs) = false := by
  have h1 := dotdot_mem_dropWhile_ws cs h
  have h2 := dotdot_mem_dropTrailing_ws _ h1
  have h3 := dotdot_mem_dropWhile_slash _ h2
  unfold sanitizePath stripChars
  unfold isSafeRepoPath
  rcases hres : (dropTrailing pyIsSpace (cs.dropWhile pyIsSpace)).dropWhile (fun c => c = '/')
    with _ | ⟨c, rest⟩
  · rfl
  · rw [hres] at h3
    by_cases hsep : c = '/' ∨ c = '\\'
    · simp [hsep]
    · simp only [hsep, if_false]
      have hc : (splitSlashes (c :: rest)).contains ['.', '.'] = true := by
        simpa [List.contains, List.elem_iff] using h3
      rw [hc]
      rfl

/-- A path whose stripped form begins with a backslash fails the safety
check after write-tool normalization. -/
theorem backslash_rejected (cs t : List Char) (h : stripChars cs = '\\' :: t) :
    isSafeRepoPath (sanitizePath cs) = false := by
  unfold sanitizePath
  rw [h, List.dropWhile_cons_of_neg (by decide)]
  unfold isSafeRepoPath
  simp

/-- Requested paths of the phase-2 read fold: every nonempty path in the
batch, in order, independent of the fetch outcomes. -/
theorem phase2Read_fold_requested (fetch : String → FetchResult) (l : List String)
    (maxChars : Nat) (acc : List (String × String) × List String) :
    (l.foldl
      (fun acc path =>
        if path = "" then acc
        else
          match fetch path with
          | .file text =>
              (acc.1 ++ [(path, String.mk (text.data.take maxChars))], acc.2 ++ [path])
          | _ => (acc.1, acc.2 ++ [path])) acc).2
      = acc.2 ++ l.filter (fun p => p ≠ "") := by
  induction l generalizing acc with
  | nil => simp
  | cons p rest ih =>
      by_cases hp : p = ""
      · simp [hp, ih]
      · cases hf : fetch p <;> simp [hp, hf, ih]

/-- C2 (amended): the write tool rejects, before any staging or repository
effect, every path containing a parent-directory segment and every path
whose stripped form begins with a backslash; the phase-2 read, by contrast,
performs no path-safety check of its own — it issues one repository request
for every nonempty path in the batch, whatever its shape.  (Paths beginning
with a forward slash are normalized by the write tool rather than rejected;
see the counterexample.) -/
theorem claim_C2_path_safety (p c : String) (st : ExecState) (fetch : String → FetchResult)
    (paths : List String) (maxChars : Nat) :
    (['.', '.'] ∈ splitSlashes p.data →
      executeWriteTool "write_file" (writeFileInput p c) st =
        (Json.obj [("ok", .bool false), ("error", .str "Invalid path")], st)) ∧
    (∀ t, stripChars p.data = '\\' :: t →
      executeWriteTool "write_file" (writeFileInput p c) st =
        (Json.obj [("ok", .bool false), ("error", .str "Invalid path")], st)) ∧
    (phase2Read fetch paths maxChars).2 = (paths.take 8).filter (fun q => q ≠ "") := by
  refine ⟨?_, ?_, ?_⟩
  · intro h
    exact executeWriteTool_write_file_reject p c st (dotdot_rejected p.data h)
  · intro t h
    exact executeWriteTool_write_file_reject p c st (backslash_rejected p.data t h)
  · unfold phase2Read
    rw [phase2Read_fold_requested]
    simp

/-- Witness for the C2 theorem: a parent-directory path is rejected with the
state untouched, and the phase-2 read requests exactly its nonempty paths. -/
theorem claim_C2_path_safety_witness :
    (executeWriteTool "write_file" (writeFileInput "../x" "X")
        ⟨⟨[⟨[], [], "init"⟩], 0, [], 0, 0⟩, []⟩ =
      (Json.obj [("ok", .bool false), ("error", .str "Invalid path")],
        ⟨⟨[⟨[], [], "init"⟩], 0, [], 0, 0⟩, []⟩)) ∧
    (phase2Read (fun _ => FetchResult.err) ["a.tsx", ""] 6000).2 = ["a.tsx"] := by
  have h := claim_C2_path_safety "../x" "X" ⟨⟨[⟨[], [], "init"⟩], 0, [], 0, 0⟩, []⟩
    (fun _ => FetchResult.err) ["a.tsx", ""] 6000
  refine ⟨h.1 (by decide), (h.2.2).trans (by decide)⟩

/-- Counterexample to C2 as stated: a path beginning with a forward slash is
not rejected — the write tool strips the leading separator and stages the
content under the relative path — and the phase-2 read issues a repository
request for a parent-directory path. -/
theorem claim_C2_counterexample :
    (executeWriteTool "write_file" (writeFileInput "/a.tsx" "X")
        ⟨⟨[⟨[], [], "init"⟩], 0, [], 0, 0⟩, []⟩).1 =
      Json.obj [("ok", .bool true), ("path", .str "a.tsx"), ("staged", .bool true),
        ("total_staged", .num 1)] ∧
    (executeWriteTool "write_file" (writeFileInput "/a.tsx" "X")
        ⟨⟨[⟨[], [], "init"⟩], 0, [], 0, 0⟩, []⟩).2.staged = [("a.tsx", "X")] ∧
    (phase2Read (fun _ => FetchResult.err) ["../secret"] 6000).2 = ["../secret"] := by
  exact ⟨rfl, rfl, rfl⟩

/-- C6 (amended): the planner never raises — on a completion-call exception,
an unparseable response, a non-list `new_files`, or a missing/falsy
integration target, the deterministic fallback plan is returned; the
fallback contains exactly the three conventionally named new files, and its
integration target is the first conventional entry-point file present in the
tree, or null when none is present.  (A parsed plan whose `new_files` is an
empty list passes the isinstance-list validation and is returned as-is; see
the counterexample.) -/
theorem claim_C6_planner_fallback (text : String) (treePaths : List String) (expSlug : String) :
    (phase1Plan none treePaths expSlug = fallbackPlan treePaths expSlug) ∧
    (extractJsonFromResponse text = none →
      phase1Plan (some text) treePaths expSlug = fallbackPlan treePaths expSlug) ∧
    (∀ p, extractJsonFromResponse text = some p →
      ¬ (jtruthy p && isJsonList (jget p "new_files")
          && optTruthy (jget p "integration_target")) = true →
      phase1Plan (some text) treePaths expSlug = fallbackPlan treePaths expSlug) ∧
    (jget (fallbackPlan treePaths expSlug) "new_files" =
      some (.arr [.str ("src/experiments/" ++ expSlug ++ "/Controller.tsx"),
                  .str ("src/experiments/" ++ expSlug ++ "/Control.tsx"),
                  .str ("src/experiments/" ++ expSlug ++ "/VariantB.tsx")])) ∧
    (∀ e, fallbackEntry treePaths = some e →
      jget (fallbackPlan treePaths expSlug) "integration_target" = some (.str e)) ∧
    (fallbackEntry treePaths = none →
      jget (fallbackPlan treePaths expSlug) "integration_target" = some .null) := by
  refine ⟨rfl, ?_, ?_, ?_, ?_, ?_⟩
  · intro h
    simp only [phase1Plan]
    rw [h]
  · intro p hp hval
    simp only [phase1Plan]
    rw [hp]
    show (if (jtruthy p && isJsonList (jget p "new_files")
        && optTruthy (jget p "integration_target")) = true then p
      else fallbackPlan treePaths expSlug) = fallbackPlan treePaths expSlug
    rw [if_neg hval]
  · cases hfe : fallbackEntry treePaths <;>
      simp [fallbackPlan, jget, assocGet, hfe]
  · intro e hfe
    cases hfe2 : fallbackEntry treePaths
    · rw [hfe2] at hfe
      exact absurd hfe (by simp)
    · rw [hfe2] at hfe
      obtain rfl : _ = e := Option.some.injEq .. ▸ hfe
      simp [fallbackPlan, jget, assocGet, hfe2]
  · intro hfe
    simp [fallbackPlan, jget, assocGet, hfe]

/-- Witness for the C6 theorem: a planner exception with a tree holding a
conventional entry point yields the fallback plan targeting it. -/
theorem claim_C6_planner_fallback_witness :
    phase1Plan none ["src/App.tsx"] "exp" = fallbackPlan ["src/App.tsx"] "exp" ∧
    jget (fallbackPlan ["src/App.tsx"] "exp") "integration_target" =
      some (.str "src/App.tsx") := by
  have h := claim_C6_planner_fallback "" ["src/App.tsx"] "exp"
  exact ⟨h.1, h.2.2.2.2.1 "src/App.tsx" (by decide)⟩

/-- Counterexample to C6 as stated: a parsed plan with an empty `new_files`
list is accepted rather than replaced by the fallback (its `new_files` stays
empty, where every fallback plan carries three files), and with no
conventional entry point in the tree the fallback integration target is
null, not non-null. -/
theorem claim_C6_counterexample :
    jget (phase1Plan
        (some "\x7b\"files_to_read\": [], \"integration_target\": \"app/page.tsx\", \"new_files\": []\x7d")
        ["app/page.tsx"] "x") "new_files" = some (.arr []) ∧
    jget (fallbackPlan ["app/page.tsx"] "x") "new_files" =
      some (.arr [.str "src/experiments/x/Controller.tsx", .str "src/experiments/x/Control.tsx",
        .str "src/experiments/x/VariantB.tsx"]) ∧
    jget (phase1Plan none [] "x") "integration_target" = some .null := by
  exact ⟨rfl, rfl, rfl⟩

set_option maxHeartbeats 1000000 in
/-- Character escaping never produces an empty output. -/
theorem jsonEscapeChar_len (c : Char) : 1 ≤ (jsonEscapeChar c).length := by
  unfold jsonEscapeChar
  split_ifs <;> simp [hex4]

/-- Escaping a string cannot shorten it. -/
theorem length_le_length_flatMap (l : List Char) (f : Char → List Char)
    (h : ∀ c, 1 ≤ (f c).length) : l.length ≤ (l.flatMap f).length := by
  induction l with
  | nil => simp
  | cons c rest ih =>
      have := h c
      simp only [List.flatMap_cons, List.length_append, List.length_cons]
      omega

/-- Escaping a run of a passthrough character is the identity. -/
theorem flatMap_replicate_single (n : Nat) (c : Char) (f : Char → List Char) (h : f c = [c]) :
    (List.replicate n c).flatMap f = List.replicate n c := by
  induction n with
  | zero => simp
  | succ n ih => simp [List.replicate_succ, h, ih]

/-- C9 (amended): when the serialized tool result exceeds the per-result
ceiling, the appended result is the compacted envelope carrying an explicit
truncated flag whose preview holds exactly the first `maxChars` characters of
the serialization (the preview, not the envelope, is capped at the ceiling);
a result at or under the ceiling is appended unchanged and respects it. -/
theorem claim_C9_compact (maxChars : Nat) (toolName : String) (result : Json) :
    ((dumpJson (preCompact toolName result)).length > maxChars →
      compactResult maxChars toolName result =
        Json.obj [("ok", (jget (preCompact toolName result) "ok").getD (.bool false)),
                  ("tool", .str toolName), ("truncated", .bool true),
                  ("preview",
                    .str (String.mk ((dumpJson (preCompact toolName result)).take maxChars)))] ∧
      (String.mk ((dumpJson (preCompact toolName result)).take maxChars)).data.length
        ≤ maxChars) ∧
    ((dumpJson (preCompact toolName result)).length ≤ maxChars →
      compactResult maxChars toolName result = preCompact toolName result ∧
      (dumpJson (compactResult maxChars toolName result)).length ≤ maxChars) := by
  constructor
  · intro h
    unfold compactResult
    rw [if_pos h]
    refine ⟨rfl, ?_⟩
    simp
  · intro h
    unfold compactResult
    rw [if_neg (by omega)]
    exact ⟨rfl, by simpa using h⟩

/-- Witness for the C9 theorem: a twelve-character result against a ceiling
of ten is replaced by the truncated envelope with a ten-character preview. -/
theorem claim_C9_compact_witness :
    compactResult 10 "write_file" (Json.obj [("ok", Json.bool true)]) =
      Json.obj [("ok", Json.bool true), ("tool", .str "write_file"),
        ("truncated", .bool true), ("preview", .str "\x7b\"ok\": tru")] := by
  have h := (claim_C9_compact 10 "write_file" (Json.obj [("ok", Json.bool true)])).1
    (by decide)
  exact h.1.trans rfl

/-- Counterexample to C9 as stated: a tool result whose serialization exceeds
the 10000-character ceiling is replaced by the truncated envelope, but the
envelope itself serializes to more than 10000 characters — the appended
result does not respect the ceiling; only its preview field is capped. -/
theorem claim_C9_counterexample :
    10000 <
      (dumpJson (preCompact "write_file"
        (Json.obj [("ok", Json.bool true),
          ("data", Json.str (String.mk (List.replicate 10100 'a')))]))).length ∧
    10000 <
      (dumpJson (compactResult 10000 "write_file"
        (Json.obj [("ok", Json.bool true),
          ("data", Json.str (String.mk (List.replicate 10100 'a')))]))).length := by
  have hesc : (List.replicate 10100 'a').flatMap jsonEscapeChar = List.replicate 10100 'a' :=
    flatMap_replicate_single 10100 'a' jsonEscapeChar (by decide)
  have hpre : preCompact "write_file"
      (Json.obj [("ok", Json.bool true),
        ("data", Json.str (String.mk (List.replicate 10100 'a'))) ]) =
      Json.obj [("ok", Json.bool true),
        ("data", Json.str (String.mk (List.replicate 10100 'a')))] := rfl
  have hlen : 10100 <
      (dumpJson (Json.obj [("ok", Json.bool true),
        ("data", Json.str (String.mk (List.replicate 10100 'a')))])).length := by
    simp only [dumpJson, dumpEntries]
    rw [hesc]
    simp only [List.length_append, List.length_cons, List.length_replicate]
    omega
  have hcond : 10000 <
      (dumpJson (preCompact "write_file"
        (Json.obj [("ok", Json.bool true),
          ("data", Json.str (String.mk (List.replicate 10100 'a')))]))).length := by
    rw [hpre]
    omega
  refine ⟨hcond, ?_⟩
  have hcompact := ((claim_C9_compact 10000 "write_file"
    (Json.obj [("ok", Json.bool true),
      ("data", Json.str (String.mk (List.replicate 10100 'a')))])).1 hcond).1
  rw [hcompact, hpre]
  have hprevlen : ((dumpJson (Json.obj [("ok", Json.bool true),
      ("data", Json.str (String.mk (List.replicate 10100 'a')))])).take 10000).length
      = 10000 := by
    rw [List.length_take]
    omega
  have hescprev : 10000 ≤
      (((dumpJson (Json.obj [("ok", Json.bool true),
        ("data", Json.str (String.mk (List.replicate 10100 'a')))])).take 10000).flatMap
          jsonEscapeChar).length := by
    calc 10000 = ((dumpJson (Json.obj [("ok", Json.bool true),
        ("data", Json.str (String.mk (List.replicate 10100 'a')))])).take 10000).length :=
        hprevlen.symm
      _ ≤ _ := length_le_length_flatMap _ jsonEscapeChar jsonEscapeChar_len
  set T := (dumpJson (Json.obj [("ok", Json.bool true),
    ("data", Json.str (String.mk (List.replicate 10100 'a')))])).take 10000 with hT
  simp only [dumpJson, dumpEntries]
  simp only [List.length_append, List.length_cons]
  omega

/-- Lookup distributes over append for JSON entries. -/
theorem assocGet_append (xs ys : List (String × Json)) (p : String) :
    assocGet (xs ++ ys) p = (assocGet xs p).or (assocGet ys p) := by
  induction xs with
  | nil => simp [assocGet]
  | cons e rest ih =>
      obtain ⟨k, v⟩ := e
      by_cases h : k = p <;> simp [assocGet, h, ih]

/-- Lookup success matches key presence for JSON entries. -/
theorem assocGet_isSome_eq_any (es : List (String × Json)) (p : String) :
    (assocGet es p).isSome = es.any (fun e => e.1 = p) := by
  induction es with
  | nil => simp [assocGet]
  | cons e rest ih =>
      obtain ⟨k, v⟩ := e
      by_cases h : k = p <;> simp [assocGet, h, ih]

/-- Replacing a present key yields the new value on lookup (JSON entries). -/
theorem assocGet_mapReplace_self (es : List (String × Json)) (k : String) (v : Json)
    (h : es.any (fun e => e.1 = k) = true) :
    assocGet (es.map (fun e => if e.1 = k then (k, v) else e)) k = some v := by
  induction es with
  | nil => simp at h
  | cons e rest ih =>
      obtain ⟨k1, v1⟩ := e
      by_cases hk : k1 = k
      · subst hk
        rw [List.map_cons]
        have hrepl : (if ((k1, v1) : String × Json).1 = k1 then ((k1, v) : String × Json)
            else (k1, v1)) = (k1, v) := by simp
        rw [hrepl]
        simp [assocGet]
      · have h' : rest.any (fun e => e.1 = k) = true := by
          simp only [List.any_cons] at h
          rcases Bool.or_eq_true_iff.mp h with h1 | h2
          · exact absurd (by simpa using h1) hk
          · exact h2
        rw [List.map_cons]
        have hrepl : (if ((k1, v1) : String × Json).1 = k then ((k, v) : String × Json)
            else (k1, v1)) = (k1, v1) := by simp [hk]
        rw [hrepl]
        simp [assocGet, hk, ih h']

/-- Lookup after JSON dict assignment returns the assigned value. -/
theorem assocGet_dictSet_self (es : List (String × Json)) (k : String) (v : Json) :
    assocGet (dictSet es k v) k = some v := by
  unfold dictSet
  by_cases h : es.any (fun e => e.1 = k) = true
  · rw [if_pos h]
    exact assocGet_mapReplace_self es k v h
  · rw [if_neg h, assocGet_append]
    have hnone : assocGet es k = none := by
      have hs := assocGet_isSome_eq_any es k
      rw [Bool.eq_false_iff.mpr h] at hs
      exact Option.not_isSome_iff_eq_none.mp (by simp [hs])
    simp [hnone, assocGet]

/-- Replacing the value under one key leaves other lookups unchanged. -/
theorem assocGet_mapReplace_ne (es : List (String × Json)) (k k' : String) (v : Json)
    (h : k' ≠ k) :
    assocGet (es.map (fun e => if e.1 = k then (k, v) else e)) k' = assocGet es k' := by
  induction es with
  | nil => simp
  | cons e rest ih =>
      obtain ⟨k1, v1⟩ := e
      by_cases hk : k1 = k
      · subst hk
        have hrepl : (if ((k1, v1) : String × Json).1 = k1 then ((k1, v) : String × Json)
            else (k1, v1)) = (k1, v) := by simp
        rw [List.map_cons, hrepl]
        have hne : ¬ k1 = k' := fun hc => h (hc ▸ rfl)
        simp [assocGet, hne, ih]
      · have hrepl : (if ((k1, v1) : String × Json).1 = k then ((k, v) : String × Json)
            else (k1, v1)) = (k1, v1) := by simp [hk]
        rw [List.map_cons, hrepl]
        by_cases hk' : k1 = k' <;> simp [assocGet, hk', ih]

/-- Lookup of a different key is unchanged by JSON dict assignment. -/
theorem assocGet_dictSet_ne (es : List (String × Json)) (k k' : String) (v : Json)
    (h : k' ≠ k) : assocGet (dictSet es k v) k' = assocGet es k' := by
  unfold dictSet
  split
  · exact assocGet_mapReplace_ne es k k' v h
  · rw [assocGet_append]
    have hone : assocGet [(k, v)] k' = none := by
      have hne : ¬ k = k' := fun hc => h hc.symm
      simp [assocGet, hne]
    cases hes : assocGet es k' <;> simp [hone, hes]

/-- Lookup of the assigned key on a JSON object after `jsetKey`. -/
theorem jget_jsetKey_self (es : List (String × Json)) (k : String) (v : Json) :
    jget (jsetKey (.obj es) k v) k = some v := by
  simp [jsetKey, jget, assocGet_dictSet_self]

/-- Lookup of a different key on a JSON object after `jsetKey`. -/
theorem jget_jsetKey_ne (es : List (String × Json)) (k k' : String) (v : Json)
    (h : k' ≠ k) : jget (jsetKey (.obj es) k v) k' = assocGet es k' := by
  simp [jsetKey, jget, assocGet_dictSet_ne es k k' v h]

/-- Object-member parsing only ever produces an object value. -/
theorem parseMembers_obj (fuel : Nat) :
    ∀ (cs : List Char) (acc : List (String × Json)) (j : Json) (rest : List Char),
      parseMembers fuel cs acc = some (j, rest) → ∃ es, j = .obj es := by
  induction fuel with
  | zero =>
      intro cs acc j rest h
      simp [parseMembers] at h
  | succ fuel ih =>
      intro cs acc j rest h
      rw [parseMembers] at h
      split at h
      · rcases hp : parseStrChars _ with _ | ⟨k, rest2⟩ <;> rw [hp] at h
        · simp at h
        · simp only [Option.bind_eq_bind, Option.some_bind] at h
          split at h
          · rcases hv : parseVal fuel _ with _ | ⟨v, rest3⟩ <;> rw [hv] at h
            · simp at h
            · simp only [Option.bind_eq_bind, Option.some_bind] at h
              split at h
              · exact ih _ _ _ _ h
              · obtain ⟨h1, -⟩ := Prod.mk.injEq .. ▸ (Option.some.injEq .. ▸ h)
                exact ⟨_, h1.symm⟩
              · simp at h
          · simp at h
      · simp at h

/-- The first-brace scan yields a suffix headed by an opening brace. -/
theorem fromFirstBrace_head (cs : List Char) :
    ∀ out, fromFirstBrace cs = some out → ∃ rest, out = '\x7b' :: rest := by
  induction cs with
  | nil => intro out h; simp [fromFirstBrace] at h
  | cons c cs ih =>
      intro out h
      unfold fromFirstBrace at h
      by_cases hc : c = '\x7b'
      · rw [if_pos hc] at h
        injection h with h1
        exact ⟨cs, by rw [← h1, hc]⟩
      · rw [if_neg hc] at h
        exact ih out h

/-- The last-close cut is a nonempty prefix of its input. -/
theorem upToLastClose_spec (cs out : List Char) (h : upToLastClose cs = some out) :
    out <+: cs ∧ out ≠ [] := by
  unfold upToLastClose at h
  rcases hd : cs.reverse.dropWhile (fun c => c ≠ '\x7d') with _ | ⟨c, r⟩
  · rw [hd] at h
    simp at h
  · rw [hd] at h
    have h2 : some ((c :: r).reverse) = some out := h
    injection h2 with h2
    have hsuf : (c :: r) <:+ cs.reverse := hd ▸ List.dropWhile_suffix _
    have hpre : (c :: r).reverse <+: cs := by
      have h3 := List.reverse_prefix.mpr hsuf
      simpa using h3
    constructor
    · rwa [h2] at hpre
    · rw [← h2]
      simp

/-- The brace span starts with an opening brace. -/
theorem braceSpan_head (cs span : List Char) (h : braceSpan cs = some span) :
    ∃ rest, span = '\x7b' :: rest := by
  unfold braceSpan at h
  rcases hf : fromFirstBrace cs with _ | suffix
  · rw [hf] at h
    simp at h
  · rw [hf] at h
    obtain ⟨r, rfl⟩ := fromFirstBrace_head cs suffix hf
    obtain ⟨hpre, hne⟩ := upToLastClose_spec _ _ h
    cases span with
    | nil => exact absurd rfl hne
    | cons c rest =>
        obtain ⟨t, ht⟩ := hpre
        have hc : c = '\x7b' := by
          have hh := congrArg (fun l => l.head?) ht
          simpa using hh
        exact ⟨rest, by rw [hc]⟩

/-- A loaded brace span is always an object. -/
theorem extractJsonFromResponse_obj (t : String) (j : Json)
    (h : extractJsonFromResponse t = some j) : ∃ es, j = .obj es := by
  unfold extractJsonFromResponse at h
  rcases hb : braceSpan t.data with _ | span
  · rw [hb] at h
    simp at h
  · rw [hb] at h
    obtain ⟨rest, rfl⟩ := braceSpan_head t.data span hb
    have h3 : pyLoads ('\x7b' :: rest) = some j := h
    unfold pyLoads at h3
    rcases hv : parseVal (('\x7b' :: rest).length + 1) ('\x7b' :: rest) with _ | ⟨v, rem⟩
    · rw [hv] at h3
      simp at h3
    · rw [hv] at h3
      have h2 : (if skipWs rem = [] then some v else none) = some j := h3
      have hj : v = j := by
        by_cases hr : skipWs rem = []
        · rw [if_pos hr] at h2
          injection h2
        · rw [if_neg hr] at h2
          exact absurd h2 (by simp)
      rw [hj] at hv
      have hv2 : (match skipWs rest with
          | '\x7d' :: rest2 => some (Json.obj [], rest2)
          | rest2 => parseMembers ('\x7b' :: rest).length rest2 []) = some (j, rem) := hv
      split at hv2
      · obtain ⟨h1, -⟩ := Prod.mk.injEq .. ▸ (Option.some.injEq .. ▸ hv2)
        exact ⟨[], h1.symm⟩
      · exact parseMembers_obj _ _ _ _ _ hv2

/-- Executing the compare tool reports the server-side diff and leaves the
state untouched. -/
theorem executeWriteTool_compare (input : ToolInput) (st : ExecState) :
    executeWriteTool "compare_changes" input st = (compareChangesResult st.repo, st) := rfl

/-- The reported total is the full diff length. -/
theorem compareTotal_eq (repo : RepoState) :
    compareTotal repo = ((diffFiles repo.baseTree repo.headTree).length : Int) := rfl

/-- The selected terminal payload is always an object. -/
theorem phase3Payload_obj (finalText : String) : ∃ es, phase3Payload finalText = .obj es := by
  unfold phase3Payload
  rcases hx : (if finalText ≠ "" then extractJsonFromResponse finalText else none)
    with _ | p
  · exact ⟨_, rfl⟩
  · show ∃ es, (if (jtruthy p && jStrEq (jget p "status") "done") = true then p
      else defaultPayload) = Json.obj es
    by_cases hv : (jtruthy p && jStrEq (jget p "status") "done") = true
    · rw [if_pos hv]
      have hsome : extractJsonFromResponse finalText = some p := by
        by_cases ht : finalText ≠ ""
        · rwa [if_pos ht] at hx
        · rw [if_neg ht] at hx
          exact absurd hx (by simp)
      exact extractJsonFromResponse_obj finalText p hsome
    · rw [if_neg hv]
      exact ⟨_, rfl⟩

/-- The safety flush of the finalization always succeeds on a well-formed
repository, empties the staged set, and commits anything staged. -/
theorem safetyFlush_eq (ls : LoopState) (hwf : ls.repo.WF) :
    ∃ R C, (if !ls.staged.isEmpty
        then flushStagedWrites ls.repo ls.staged "Implement experiment (auto-flush)"
        else some (ls.repo, ls.staged, 0)) = some (R, [], C) ∧ R.WF ∧
      (ls.staged = [] → R = ls.repo) ∧
      (ls.staged ≠ [] → R.headTree = layerTree ls.repo.headTree ls.staged ∧
        R.blobs = ls.repo.blobs + ls.staged.length) := by
  by_cases hs : ls.staged = []
  · refine ⟨ls.repo, 0, ?_, hwf, fun _ => rfl, fun hc => absurd hs hc⟩
    rw [hs]
    simp
  · have hflush := flushStagedWrites_cons ls.repo ls.staged
      "Implement experiment (auto-flush)" hs hwf
    exact ⟨_, ls.staged.length,
      by rw [if_pos (by simp [hs])]; exact hflush,
      by simp [RepoState.WF],
      fun hc => absurd hc hs,
      fun _ => ⟨by unfold RepoState.headTree; simp, rfl⟩⟩

/-- Finalization in the insufficiency branch: the hard error, whatever the
final text was. -/
theorem phase3Finalize_insufficient (minF : Nat) (ls : LoopState) (R : RepoState) (C : Nat)
    (hsc : (if !ls.staged.isEmpty
        then flushStagedWrites ls.repo ls.staged "Implement experiment (auto-flush)"
        else some (ls.repo, ls.staged, 0)) = some (R, [], C))
    (hlt : compareTotal R < (minF : Int)) :
    phase3Finalize minF ls =
      (.error (insufficiencyError (compareTotal R) minF),
       { ls with repo := R, staged := [] }) := by
  unfold phase3Finalize
  rw [hsc]
  show (if compareTotal R < (minF : Int) then
      (Except.error (insufficiencyError (compareTotal R) minF),
        ({ ls with repo := R, staged := ([] : List (String × String)) } : LoopState))
    else _) = _
  rw [if_pos hlt]

/-- Finalization in the sufficient branch: the payload extended with the
server-side diff data. -/
theorem phase3Finalize_sufficient (minF : Nat) (ls : LoopState) (R : RepoState) (C : Nat)
    (hsc : (if !ls.staged.isEmpty
        then flushStagedWrites ls.repo ls.staged "Implement experiment (auto-flush)"
        else some (ls.repo, ls.staged, 0)) = some (R, [], C))
    (hge : ¬ compareTotal R < (minF : Int)) :
    phase3Finalize minF ls =
      (.ok (jsetKey (jsetKey (phase3Payload ls.finalText)
          "changed_files_count" (.num (compareTotal R)))
          "changed_files" ((jget (compareChangesResult R) "files").getD (.arr []))),
       { ls with repo := R, staged := [] }) := by
  unfold phase3Finalize
  rw [hsc]
  show (if compareTotal R < (minF : Int) then _
    else (Except.ok (jsetKey (jsetKey (phase3Payload ls.finalText)
        "changed_files_count" (.num (compareTotal R)))
        "changed_files" ((jget (compareChangesResult R) "files").getD (.arr []))),
      ({ ls with repo := R, staged := ([] : List (String × String)) } : LoopState))) = _
  rw [if_neg hge]

/-- C3: the minimum-changed-files threshold for N segments is
`max 2 (min 6 (N+1))`, bounded between 2 and 6, and the finalization decides
failure solely from the server-side diff of the post-flush repository: a
total below the threshold yields the insufficiency error and a total at or
above it yields a payload, for every loop state — in particular for every
terminal text the model produced, which cannot bypass the check. -/
theorem claim_C3_threshold (N : Nat) (ls : LoopState) (hwf : ls.repo.WF) :
    minChangedFilesFor N = max 2 (min 6 (N + 1)) ∧
    2 ≤ minChangedFilesFor N ∧ minChangedFilesFor N ≤ 6 ∧
    (compareTotal (phase3Finalize (minChangedFilesFor N) ls).2.repo
        < (minChangedFilesFor N : Int) →
      (phase3Finalize (minChangedFilesFor N) ls).1 =
        .error (insufficiencyError
          (compareTotal (phase3Finalize (minChangedFilesFor N) ls).2.repo)
          (minChangedFilesFor N))) ∧
    ((minChangedFilesFor N : Int) ≤
        compareTotal (phase3Finalize (minChangedFilesFor N) ls).2.repo →
      ∃ payload, (phase3Finalize (minChangedFilesFor N) ls).1 = .ok payload) := by
  obtain ⟨R, C, hsc, hRwf, -, -⟩ := safetyFlush_eq ls hwf
  refine ⟨rfl, by unfold minChangedFilesFor; omega, by unfold minChangedFilesFor; omega, ?_, ?_⟩
  · intro hlt
    by_cases hltR : compareTotal R < (minChangedFilesFor N : Int)
    · rw [phase3Finalize_insufficient (minChangedFilesFor N) ls R C hsc hltR]
    · rw [phase3Finalize_sufficient (minChangedFilesFor N) ls R C hsc hltR] at hlt
      have hlt2 : compareTotal R < (minChangedFilesFor N : Int) := hlt
      exact absurd hlt2 hltR
  · intro hge
    by_cases hltR : compareTotal R < (minChangedFilesFor N : Int)
    · rw [phase3Finalize_insufficient (minChangedFilesFor N) ls R C hsc hltR] at hge
      have hge2 : (minChangedFilesFor N : Int) ≤ compareTotal R := hge
      omega
    · rw [phase3Finalize_sufficient (minChangedFilesFor N) ls R C hsc hltR]
      exact ⟨_, rfl⟩

/-- Witness for the C3 theorem: the spec scenario — three segments give a
threshold of four, and a diff of three changed files fails finalization. -/
theorem claim_C3_threshold_witness :
    minChangedFilesFor 3 = 4 ∧
    (phase3Finalize (minChangedFilesFor 3)
      ⟨⟨[⟨[("a.tsx", "1"), ("b.tsx", "2"), ("c.tsx", "3")], [], "init"⟩], 0, [], 0, 0⟩,
        [], [], "", 0⟩).1 = .error (insufficiencyError 3 4) := by
  have h := claim_C3_threshold 3
    ⟨⟨[⟨[("a.tsx", "1"), ("b.tsx", "2"), ("c.tsx", "3")], [], "init"⟩], 0, [], 0, 0⟩,
      [], [], "", 0⟩ (by simp [RepoState.WF])
  have h4 := h.2.2.2.1 (by decide)
  have hc : compareTotal ((phase3Finalize (minChangedFilesFor 3)
      ⟨⟨[⟨[("a.tsx", "1"), ("b.tsx", "2"), ("c.tsx", "3")], [], "init"⟩], 0, [], 0, 0⟩,
        [], [], "", 0⟩).2).repo = 3 := by decide
  rw [hc] at h4
  exact ⟨rfl, h4⟩

/-- An absent, unparseable, falsy or not-done final text selects the default
payload. -/
theorem phase3Payload_invalid (t : String)
    (h : t = "" ∨ extractJsonFromResponse t = none ∨
      ∃ p, extractJsonFromResponse t = some p ∧
        (jtruthy p && jStrEq (jget p "status") "done") = false) :
    phase3Payload t = defaultPayload := by
  unfold phase3Payload
  rcases h with h | h | ⟨p, hp, hflag⟩
  · rw [if_neg (by simp [h])]
  · by_cases ht : t ≠ ""
    · rw [if_pos ht, h]
    · rw [if_neg ht]
  · by_cases ht : t ≠ ""
    · rw [if_pos ht, hp]
      show (if (jtruthy p && jStrEq (jget p "status") "done") = true then p
        else defaultPayload) = defaultPayload
      rw [if_neg (by simp [hflag])]
    · rw [if_neg ht]

/-- C5: when the final text is absent or does not parse to a payload marked
done, and the changed-files threshold is met, the run does not fail — the
default payload (status done with the default title, description, commit
message and notes) is synthesized; and every successful payload is extended
with `changed_files_count` and `changed_files` taken from the server-side
diff. -/
theorem claim_C5_default_payload (minF : Nat) (ls : LoopState) (hwf : ls.repo.WF) :
    ((ls.finalText = "" ∨ extractJsonFromResponse ls.finalText = none ∨
        (∃ p, extractJsonFromResponse ls.finalText = some p ∧
          (jtruthy p && jStrEq (jget p "status") "done") = false)) →
      (minF : Int) ≤ compareTotal (phase3Finalize minF ls).2.repo →
      (phase3Finalize minF ls).1 =
        .ok (jsetKey (jsetKey defaultPayload "changed_files_count"
              (.num (compareTotal (phase3Finalize minF ls).2.repo)))
            "changed_files"
            ((jget (compareChangesResult (phase3Finalize minF ls).2.repo) "files").getD
              (.arr [])))) ∧
    (∀ payload, (phase3Finalize minF ls).1 = .ok payload →
      jget payload "changed_files_count" =
        some (.num (compareTotal (phase3Finalize minF ls).2.repo)) ∧
      jget payload "changed_files" =
        some ((jget (compareChangesResult (phase3Finalize minF ls).2.repo) "files").getD
          (.arr []))) ∧
    jget defaultPayload "status" = some (.str "done") ∧
    jget defaultPayload "prTitle" = some (.str "feat: A/B experiment") ∧
    jget defaultPayload "prDescription" =
      some (.str "A/B experiment implementation with event tracking.") ∧
    jget defaultPayload "commitMessage" = some (.str "Implement A/B experiment") ∧
    jget defaultPayload "verificationNotes" = some (.str "Auto-completed") := by
  obtain ⟨R, C, hsc, hRwf, -, -⟩ := safetyFlush_eq ls hwf
  refine ⟨?_, ?_, rfl, rfl, rfl, rfl, rfl⟩
  · intro hinv hge
    by_cases hltR : compareTotal R < (minF : Int)
    · rw [phase3Finalize_insufficient minF ls R C hsc hltR] at hge
      have hge2 : (minF : Int) ≤ compareTotal R := hge
      omega
    · rw [phase3Finalize_sufficient minF ls R C hsc hltR,
        phase3Payload_invalid ls.finalText hinv]
  · intro payload hok
    by_cases hltR : compareTotal R < (minF : Int)
    · rw [phase3Finalize_insufficient minF ls R C hsc hltR] at hok
      exact absurd hok (by simp)
    · rw [phase3Finalize_sufficient minF ls R C hsc hltR] at hok ⊢
      have hpl : jsetKey (jsetKey (phase3Payload ls.finalText)
          "changed_files_count" (.num (compareTotal R)))
          "changed_files" ((jget (compareChangesResult R) "files").getD (.arr []))
          = payload := by
        have h2 : Except.ok (ε := String) (jsetKey (jsetKey (phase3Payload ls.finalText)
            "changed_files_count" (.num (compareTotal R)))
            "changed_files" ((jget (compareChangesResult R) "files").getD (.arr [])))
            = .ok payload := hok
        injection h2
      obtain ⟨es, hes⟩ := phase3Payload_obj ls.finalText
      rw [← hpl, hes]
      constructor
      · have hsetcfc : jsetKey (Json.obj es) "changed_files_count"
            (.num (compareTotal R)) = Json.obj (dictSet es "changed_files_count"
              (.num (compareTotal R))) := rfl
        rw [hsetcfc, jget_jsetKey_ne _ _ _ _ (by decide)]
        exact assocGet_dictSet_self _ _ _
      · have hsetcfc : jsetKey (Json.obj es) "changed_files_count"
            (.num (compareTotal R)) = Json.obj (dictSet es "changed_files_count"
              (.num (compareTotal R))) := rfl
        rw [hsetcfc]
        exact jget_jsetKey_self _ _ _

/-- Witness for the C5 theorem: an empty final text with the threshold met
produces a successful payload carrying the server-side count. -/
theorem claim_C5_default_payload_witness :
    ∃ payload,
      (phase3Finalize 0 ⟨⟨[⟨[("a.tsx", "1")], [], "init"⟩], 0, [], 0, 0⟩, [], [], "", 0⟩).1
        = .ok payload ∧
      jget payload "changed_files_count" = some (.num 1) := by
  have h := claim_C5_default_payload 0
    ⟨⟨[⟨[("a.tsx", "1")], [], "init"⟩], 0, [], 0, 0⟩, [], [], "", 0⟩ (by simp [RepoState.WF])
  have ha := h.1 (Or.inl rfl) (by decide)
  refine ⟨_, ha, ?_⟩
  have hb := (h.2.1 _ ha).1
  rw [hb]
  have hc : compareTotal ((phase3Finalize 0
      ⟨⟨[⟨[("a.tsx", "1")], [], "init"⟩], 0, [], 0, 0⟩, [], [], "", 0⟩).2).repo = 1 := by
    decide
  rw [hc]

/-- Tool execution preserves repository well-formedness. -/
theorem executeWriteTool_wf (name : String) (input : ToolInput) (st : ExecState)
    (hwf : st.repo.WF) : ((executeWriteTool name input st).2).repo.WF := by
  unfold executeWriteTool
  by_cases h1 : name = "write_file"
  · rw [if_pos h1]
    by_cases hsafe : !isSafeRepoPath (String.mk (sanitizePath (input.path.getD "").data)).data
    · rw [if_pos hsafe]
      exact hwf
    · rw [if_neg hsafe]
      exact hwf
  · rw [if_neg h1]
    by_cases h2 : name = "flush_writes"
    · rw [if_pos h2]
      have hgen : ∀ msg : String,
          ((match flushStagedWrites st.repo st.staged msg with
            | some (repo, staged, count) =>
                (Json.obj [("ok", Json.bool true), ("committed_files", Json.num count)],
                  ({ repo := repo, staged := staged } : ExecState))
            | none =>
                (Json.obj [("ok", Json.bool false), ("error", Json.str "flush failed"),
                  ("tool", Json.str name)], st)).2).repo.WF := by
        intro msg
        rcases hf : flushStagedWrites st.repo st.staged msg with _ | ⟨repo2, staged2, count2⟩
        · exact hwf
        · exact flush_preserves_wf st.repo repo2 st.staged staged2 msg count2 hwf hf
      exact hgen _
    · rw [if_neg h2]
      by_cases h3 : name = "compare_changes"
      · rw [if_pos h3]
        exact hwf
      · rw [if_neg h3]
        exact hwf

/-- Block processing preserves repository well-formedness. -/
theorem processBlocks_wf (maxChars : Nat) (blocks : List Block) (acc : TurnAcc)
    (hwf : acc.st.repo.WF) : ((blocks.foldl (processBlock maxChars) acc).st).repo.WF := by
  induction blocks generalizing acc with
  | nil => exact hwf
  | cons b rest ih =>
      rw [List.foldl_cons]
      apply ih
      cases b with
      | text s => exact hwf
      | toolUse id name input => exact executeWriteTool_wf name input acc.st hwf

/-- The write-agent loop always terminates normally on a well-formed
repository, preserves well-formedness, and makes at most one completion call
per remaining turn. -/
theorem phase3Go_ok (oracle : Nat → ModelResponse) (maxChars : Nat) :
    ∀ (fuel : Nat) (ls : LoopState), ls.repo.WF →
      ∃ ls', phase3Go oracle maxChars fuel ls = .ok ls' ∧ ls'.repo.WF ∧
        ls'.calls ≤ ls.calls + fuel := by
  intro fuel
  induction fuel with
  | zero =>
      intro ls hwf
      exact ⟨ls, rfl, hwf, by omega⟩
  | succ fuel ih =>
      intro ls hwf
      have hwfacc : (((oracle ls.calls).content.foldl (processBlock maxChars)
          ⟨⟨ls.repo, ls.staged⟩, [], [], []⟩).st).repo.WF :=
        processBlocks_wf maxChars _ _ hwf
      have step : ∀ S : LoopState, S.repo.WF → S.calls ≤ ls.calls + 1 →
          ∃ ls', phase3Go oracle maxChars fuel S = .ok ls' ∧ ls'.repo.WF ∧
            ls'.calls ≤ ls.calls + (fuel + 1) := by
        intro S hS hc
        obtain ⟨ls', h1, h2, h3⟩ := ih S hS
        exact ⟨ls', h1, h2, by omega⟩
      simp only [phase3Go]
      split_ifs
      all_goals first
        | (apply step
           · simpa using hwfacc
           · simp)
        | (refine ⟨_, rfl, ?_, ?_⟩
           · simpa using hwfacc
           · simp)
        | (split
           · next repo staged count heq =>
               apply step
               · have hw := flush_preserves_wf _ repo _ staged _ count
                   (by simpa using hwfacc) heq
                 simpa using hw
               · simp
           · next heq =>
               exfalso
               have heq2 : flushStagedWrites
                   (((oracle ls.calls).content.foldl (processBlock maxChars)
                     ⟨⟨ls.repo, ls.staged⟩, [], [], []⟩).st).repo
                   (((oracle ls.calls).content.foldl (processBlock maxChars)
                     ⟨⟨ls.repo, ls.staged⟩, [], [], []⟩).st).staged
                   "Implement experiment" = none := heq
               by_cases hse : (((oracle ls.calls).content.foldl (processBlock maxChars)
                   ⟨⟨ls.repo, ls.staged⟩, [], [], []⟩).st).staged = []
               · rw [hse, flushStagedWrites_nil] at heq2
                 exact absurd heq2 (by simp)
               · rw [flushStagedWrites_cons _ _ _ hse hwfacc] at heq2
                 exact absurd heq2 (by simp))

/-- C4: the write-agent loop makes at most its fixed budget of eight
completion calls, and on every exit — terminal payload, break, or cap —
whatever is still staged is flushed before the phase returns: the returned
state has an empty staged set, an unchanged repository when nothing was
staged, and otherwise a head tree equal to the staged set layered onto the
loop-exit head tree with one blob per staged file — staged work is never
silently discarded. -/
theorem claim_C4_turn_budget (oracle : Nat → ModelResponse) (maxChars minF : Nat)
    (repo0 : RepoState) (writePrompt : String) (hwf : repo0.WF) :
    ∃ lsMid,
      phase3Go oracle maxChars MAX_TURNS ⟨repo0, [], [⟨"user", .str writePrompt⟩], "", 0⟩
        = .ok lsMid ∧
      lsMid.calls ≤ 8 ∧
      (phase3Write oracle maxChars minF repo0 writePrompt).2.staged = [] ∧
      (phase3Write oracle maxChars minF repo0 writePrompt).2.calls = lsMid.calls ∧
      (lsMid.staged = [] →
        (phase3Write oracle maxChars minF repo0 writePrompt).2.repo = lsMid.repo) ∧
      (lsMid.staged ≠ [] →
        (phase3Write oracle maxChars minF repo0 writePrompt).2.repo.headTree
          = layerTree lsMid.repo.headTree lsMid.staged ∧
        (phase3Write oracle maxChars minF repo0 writePrompt).2.repo.blobs
          = lsMid.repo.blobs + lsMid.staged.length) := by
  obtain ⟨lsMid, hgo, hwfMid, hcalls⟩ := phase3Go_ok oracle maxChars MAX_TURNS
    ⟨repo0, [], [⟨"user", .str writePrompt⟩], "", 0⟩ hwf
  obtain ⟨R, C, hsc, hRwf, hempty, hnon⟩ := safetyFlush_eq lsMid hwfMid
  have hpw : phase3Write oracle maxChars minF repo0 writePrompt
      = phase3Finalize minF lsMid := by
    unfold phase3Write
    rw [hgo]
  have hfin2 : (phase3Finalize minF lsMid).2 = { lsMid with repo := R, staged := [] } := by
    by_cases hlt : compareTotal R < (minF : Int)
    · rw [phase3Finalize_insufficient minF lsMid R C hsc hlt]
    · rw [phase3Finalize_sufficient minF lsMid R C hsc hlt]
  refine ⟨lsMid, hgo, by simpa [MAX_TURNS] using hcalls, ?_, ?_, ?_, ?_⟩
  · rw [hpw, hfin2]
  · rw [hpw, hfin2]
  · intro hs
    rw [hpw, hfin2]
    exact hempty hs
  · intro hs
    obtain ⟨h1, h2⟩ := hnon hs
    rw [hpw, hfin2]
    exact ⟨h1, h2⟩

/-- Witness for the C4 theorem: a text-only oracle ends the loop after one
call, with nothing left staged. -/
theorem claim_C4_turn_budget_witness :
    ∃ lsMid,
      phase3Go (fun _ => ⟨[Block.text "done"], "end_turn"⟩) 10000 MAX_TURNS
        ⟨⟨[⟨[("a.tsx", "1")], [], "init"⟩], 0, [], 0, 0⟩, [], [⟨"user", .str "p"⟩], "", 0⟩
        = .ok lsMid ∧ lsMid.calls ≤ 8 ∧
      (phase3Write (fun _ => ⟨[Block.text "done"], "end_turn"⟩) 10000 0
        ⟨[⟨[("a.tsx", "1")], [], "init"⟩], 0, [], 0, 0⟩ "p").2.staged = [] := by
  obtain ⟨lsMid, h1, h2, h3, -⟩ := claim_C4_turn_budget
    (fun _ => ⟨[Block.text "done"], "end_turn"⟩) 10000 0
    ⟨[⟨[("a.tsx", "1")], [], "init"⟩], 0, [], 0, 0⟩ "p" (by simp [RepoState.WF])
  exact ⟨lsMid, h1, h2, h3⟩

/-- C8 (code bug): after eight consecutive tool-use turns of the general tool
agent (`max_history_messages = 16`), the trimmed transcript keeps the first
user turn (the task prompt) but its second message is a user turn carrying a
tool-result block whose matching tool invocation is gone — the trim
`[messages[0]] + messages[-15:]` drops only the assistant half of the oldest
pair, so tool results are separated from their invocations, which the
completion service rejects. -/
theorem claim_C8_trim_orphans :
    (runToolAgentGo (fun i => [Block.toolUse (String.mk [Char.ofNat (48 + i)]) "read_file" {}])
        (fun _ => "r") 16 9 [⟨"user", .str "task"⟩] 0).length = 16 ∧
    (runToolAgentGo (fun i => [Block.toolUse (String.mk [Char.ofNat (48 + i)]) "read_file" {}])
        (fun _ => "r") 16 9 [⟨"user", .str "task"⟩] 0)[0]?
      = some ⟨"user", MsgContent.str "task"⟩ ∧
    ((runToolAgentGo (fun i => [Block.toolUse (String.mk [Char.ofNat (48 + i)]) "read_file" {}])
        (fun _ => "r") 16 9 [⟨"user", .str "task"⟩] 0)[1]?.map isToolResultUserMsg)
      = some true ∧
    ((runToolAgentGo (fun i => [Block.toolUse (String.mk [Char.ofNat (48 + i)]) "read_file" {}])
        (fun _ => "r") 16 9 [⟨"user", .str "task"⟩] 0)[1]?.map msgToolResultIds)
      = some ["1"] ∧
    ((runToolAgentGo (fun i => [Block.toolUse (String.mk [Char.ofNat (48 + i)]) "read_file" {}])
        (fun _ => "r") 16 9 [⟨"user", .str "task"⟩] 0)[0]?.map msgToolUseIds)
      = some [] := by
  exact ⟨rfl, rfl, rfl, rfl, rfl⟩
